import Mathlib

/-!
Shallow embedding of the ToyCarGym repository: the 2D vector type
(math_utils/src/vec.rs), the root and 1-D minimum finders
(math_utils/src/root.rs), cubic Bezier segments, bounding boxes and the
smooth Bezier spline (math_utils/src/spline.rs), the spline track
(car_sim/src/map/spline_map.rs), the kinematic car integrator
(src/car/physics.rs) and the RL environment wrapper (car_sim/src/gym.rs).

Numeric conventions: f32 values are modelled exactly, by an arbitrary
linear ordered field; the geometric pipeline is instantiated at rational
numbers (every f32 value is a rational, and the pipeline is free of
transcendental functions) so that concrete runs can be decided by
evaluation, while the car physics, which uses sin, cos and tan, and the
arc-length integrator, which uses sqrt, are instantiated at the reals.
Rational and real runs of the shared pipeline are connected by cast
lemmas.
-/

namespace CarGym

/-! ## Vec2 (math_utils/src/vec.rs) -/

structure Vec2 (α : Type) where
  x : α
  y : α
deriving DecidableEq, Repr

variable {α : Type} [LinearOrderedField α]

instance : Add (Vec2 α) := ⟨fun a b => ⟨a.x + b.x, a.y + b.y⟩⟩

instance : Sub (Vec2 α) := ⟨fun a b => ⟨a.x - b.x, a.y - b.y⟩⟩

instance : Neg (Vec2 α) := ⟨fun a => ⟨-a.x, -a.y⟩⟩

instance : HMul (Vec2 α) α (Vec2 α) := ⟨fun a k => ⟨a.x * k, a.y * k⟩⟩

instance : HDiv (Vec2 α) α (Vec2 α) := ⟨fun a k => ⟨a.x / k, a.y / k⟩⟩

def Vec2.dot (a b : Vec2 α) : α := a.x * b.x + a.y * b.y

def Vec2.rotate90 (a : Vec2 α) : Vec2 α := ⟨-a.y, a.x⟩

/-- Euclidean norm; only used at the reals. -/
noncomputable def Vec2.norm (a : Vec2 ℝ) : ℝ := Real.sqrt (a.x * a.x + a.y * a.y)

/-- Rotation by an angle, using sin and cos directly; only used at the reals. -/
noncomputable def Vec2.rotate (a : Vec2 ℝ) (angle : ℝ) : Vec2 ℝ :=
  ⟨a.x * Real.cos angle - a.y * Real.sin angle,
   a.x * Real.sin angle + a.y * Real.cos angle⟩

/-! ## Root finding and 1-D minimization (math_utils/src/root.rs) -/

inductive Sign where
  | Negative
  | Zero
  | Positive
deriving DecidableEq, Repr

inductive IntervalParity where
  | Rising
  | Falling
deriving DecidableEq, Repr

/-- Sign classification of an observed value, as in FunctionObservation::new. -/
def signOf (v : α) : Sign :=
  if v < 0 then Sign.Negative else if v = 0 then Sign.Zero else Sign.Positive

structure FunctionObservation (α : Type) where
  x : α
  value : α
  sign : Sign
deriving DecidableEq, Repr

def FunctionObservation.new (x v : α) : FunctionObservation α := ⟨x, v, signOf v⟩

structure OpenInterval (α : Type) where
  left : FunctionObservation α
  right : FunctionObservation α
  parity : IntervalParity
deriving DecidableEq, Repr

inductive BisectionUpdate (α : Type) where
  | Root (x : α)
  | Interval (itv : OpenInterval α)
deriving DecidableEq, Repr

def OpenInterval.update (self : OpenInterval α) (observation : FunctionObservation α) :
    BisectionUpdate α :=
  match self.parity, observation.sign with
  | _, Sign.Zero => BisectionUpdate.Root observation.x
  | IntervalParity.Rising, Sign.Positive =>
      BisectionUpdate.Interval ⟨self.left, observation, IntervalParity.Rising⟩
  | IntervalParity.Falling, Sign.Negative =>
      BisectionUpdate.Interval ⟨self.left, observation, IntervalParity.Falling⟩
  | IntervalParity.Rising, Sign.Negative =>
      BisectionUpdate.Interval ⟨observation, self.right, IntervalParity.Rising⟩
  | IntervalParity.Falling, Sign.Positive =>
      BisectionUpdate.Interval ⟨observation, self.right, IntervalParity.Falling⟩

def OpenInterval.width (self : OpenInterval α) : α := self.right.x - self.left.x

/-- Final linear two-point root estimate on the last bracketing interval. -/
def OpenInterval.linearEstimate (itv : OpenInterval α) : α :=
  let k := (itv.right.x - itv.left.x) / (itv.right.value - itv.left.value)
  itv.left.x - itv.left.value * k

/-- Bisection loop of find_root; fuel counts the remaining iterations of the
source loop, which runs at most 20 times. -/
def findRootLoop (f : α → α) (width_threshold : α) :
    ℕ → OpenInterval α → α
  | 0, itv => itv.linearEstimate
  | fuel + 1, itv =>
    if itv.width ≤ width_threshold then itv.linearEstimate
    else
      let midpoint_x := (itv.left.x + itv.right.x) / 2
      match itv.update (FunctionObservation.new midpoint_x (f midpoint_x)) with
      | BisectionUpdate.Root x => x
      | BisectionUpdate.Interval itv2 => findRootLoop f width_threshold fuel itv2

def findRoot (f : α → α) (x_min x_max width_threshold : α) : Option α :=
  let left := FunctionObservation.new x_min (f x_min)
  let right := FunctionObservation.new x_max (f x_max)
  match left.sign, right.sign with
  | Sign.Zero, _ => some x_min
  | _, Sign.Zero => some x_max
  | Sign.Negative, Sign.Positive =>
      some (findRootLoop f width_threshold 20 ⟨left, right, IntervalParity.Rising⟩)
  | Sign.Positive, Sign.Negative =>
      some (findRootLoop f width_threshold 20 ⟨left, right, IntervalParity.Falling⟩)
  | _, _ => none

def findLocalMinDifferentiable (fp : α → α) (x_min x_max width_threshold : α) : Option α :=
  let d_start := fp x_min
  let d_end := fp x_max
  if d_start > 0 ∨ d_end < 0 then none
  else findRoot fp x_min x_max width_threshold

/-- Accumulator step of the grid-argmin fold in find_min_differentiable: a
new sample replaces the accumulator when its value is smaller or equal. -/
def argminAcc (acc : Option (ℕ × α)) (iv : ℕ × α) : Option (ℕ × α) :=
  match acc with
  | none => some iv
  | some jv => if iv.2 ≤ jv.2 then some iv else some jv

def gridArgmin (values : List (ℕ × α)) : Option (ℕ × α) :=
  values.foldl argminAcc none

def findMinDifferentiable (f fp : α → α) (x_min x_max width_threshold : α) :
    FunctionObservation α :=
  let dx := (x_max - x_min) / (32 : α)
  let values := (List.range 33).map (fun (i : ℕ) => (i, f (x_min + (i : α) * dx)))
  match gridArgmin values with
  | none => FunctionObservation.new x_min (f x_min)
  | some (i, value_i) =>
    let xi := x_min + (i : α) * dx
    let x_left := max (xi - dx) x_min
    let x_right := min (xi + dx) x_max
    match findLocalMinDifferentiable fp x_left x_right width_threshold with
    | some x_lm =>
      let value_lm := f x_lm
      if value_lm < value_i then FunctionObservation.new x_lm value_lm
      else FunctionObservation.new xi value_i
    | none => FunctionObservation.new xi value_i

/-! ## Cubic Bezier segments and bounding boxes (math_utils/src/spline.rs) -/

structure BoundingBox (α : Type) where
  min_x : α
  max_x : α
  min_y : α
  max_y : α
  corners : List (Vec2 α)
deriving DecidableEq, Repr

def BoundingBox.new (min_x max_x min_y max_y : α) : BoundingBox α :=
  ⟨min_x, max_x, min_y, max_y,
   [⟨min_x, min_y⟩, ⟨min_x, max_y⟩, ⟨max_x, min_y⟩, ⟨max_x, max_y⟩]⟩

/-- Nine-quadrant clamp of a point to the box, following the match arms of
the source in order; the two panicking arms are unreachable for boxes with
min not above max and are mapped to the input point. -/
def BoundingBox.closest_point (self : BoundingBox α) (point : Vec2 α) : Vec2 α :=
  if point.x ≤ self.min_x ∧ point.y ≤ self.min_y then ⟨self.min_x, self.min_y⟩
  else if point.x ≤ self.min_x ∧ point.y > self.max_y then ⟨self.min_x, self.max_y⟩
  else if point.x > self.max_x ∧ point.y > self.max_y then ⟨self.max_x, self.max_y⟩
  else if point.x > self.max_x ∧ point.y ≤ self.min_y then ⟨self.max_x, self.min_y⟩
  else if ¬point.x ≤ self.min_x ∧ ¬point.x > self.max_x ∧
          ¬point.y ≤ self.min_y ∧ ¬point.y > self.max_y then point
  else if point.x ≤ self.min_x then ⟨self.min_x, point.y⟩
  else if point.x > self.max_x then ⟨self.max_x, point.y⟩
  else if point.y ≤ self.min_y then ⟨point.x, self.min_y⟩
  else if point.y > self.max_y then ⟨point.x, self.max_y⟩
  else point

/-- Reduction step keeping the corner of larger squared distance, keeping
the earlier corner on ties (total_cmp Greater takes the new corner). -/
def farthestAcc (acc : Vec2 α × α) (n : Vec2 α × α) : Vec2 α × α :=
  if n.2 > acc.2 then n else acc

def BoundingBox.farthest_point (self : BoundingBox α) (point : Vec2 α) : Vec2 α :=
  let pairs := self.corners.map (fun corner =>
    let delta := point - corner
    (corner, delta.dot delta))
  match pairs with
  | [] => point
  | h :: t => (t.foldl farthestAcc h).1

structure BezierControl (α : Type) where
  point : Vec2 α
  velocity : Vec2 α
deriving DecidableEq, Repr

structure CubicBezier (α : Type) where
  start : Vec2 α
  p1 : Vec2 α
  p2 : Vec2 α
  stop : Vec2 α
  c1 : Vec2 α
  c2 : Vec2 α
  c3 : Vec2 α
deriving DecidableEq, Repr

/-- Constructor computing the polynomial coefficients from the four control
points; the cached arc length and bounding box of the source struct are
recomputed on demand by arc_length_full and bounding_box, which is
observationally identical because the struct is immutable after new. -/
def CubicBezier.new (start p1 p2 stop : Vec2 α) : CubicBezier α :=
  { start := start, p1 := p1, p2 := p2, stop := stop
    c1 := (p1 - start) * (3 : α)
    c2 := start * (3 : α) - p1 * (6 : α) + p2 * (3 : α)
    c3 := -start + p1 * (3 : α) - p2 * (3 : α) + stop }

def CubicBezier.get (self : CubicBezier α) (t : α) : Vec2 α :=
  self.start + self.c1 * t + self.c2 * t * t + self.c3 * t * t * t

def CubicBezier.velocity (self : CubicBezier α) (t : α) : Vec2 α :=
  self.c1 + self.c2 * (2 : α) * t + self.c3 * (3 : α) * t * t

def CubicBezier.bounding_box (self : CubicBezier α) : BoundingBox α :=
  let fx := fun t => (self.get t).x
  let fpx := fun t => (self.velocity t).x
  let min_x := (findMinDifferentiable fx fpx 0 1 (1 / 10000)).value
  let max_x := -(findMinDifferentiable (fun t => -fx t) (fun t => -fpx t) 0 1 (1 / 10000)).value
  let fy := fun t => (self.get t).y
  let fpy := fun t => (self.velocity t).y
  let min_y := (findMinDifferentiable fy fpy 0 1 (1 / 10000)).value
  let max_y := -(findMinDifferentiable (fun t => -fy t) (fun t => -fpy t) 0 1 (1 / 10000)).value
  BoundingBox.new min_x max_x min_y max_y

structure ClosestPointOutput (α : Type) where
  parameter : α
  distance_sq : α
deriving DecidableEq, Repr

def CubicBezier.closest_point (self : CubicBezier α) (point : Vec2 α) :
    ClosestPointOutput α :=
  let f := fun t =>
    let pt := self.get t
    (pt - point).dot (pt - point)
  let fp := fun t =>
    let pt := self.get t
    let v := self.velocity t
    (pt - point).dot v * 2
  let obs := findMinDifferentiable f fp 0 1 (1 / 100)
  ⟨obs.x, obs.value⟩

/-! ## Smooth Bezier spline (math_utils/src/spline.rs) -/

structure SmoothBezierSpline (α : Type) where
  segments : List (CubicBezier α)
deriving DecidableEq, Repr

/-- Field max_u of the source struct, always set to the segment count by new. -/
def SmoothBezierSpline.max_u (self : SmoothBezierSpline α) : α :=
  (self.segments.length : α)

def SmoothBezierSpline.new (controls : List (BezierControl α)) : SmoothBezierSpline α :=
  ⟨(controls.zip controls.tail).map (fun cw =>
    CubicBezier.new cw.1.point (cw.1.point + cw.1.velocity)
      (cw.2.point - cw.2.velocity) cw.2.point)⟩

/-- Junk segment used for out-of-range indices, which the source never hits. -/
def SmoothBezierSpline.segAt (self : SmoothBezierSpline α) (i : ℕ) : CubicBezier α :=
  self.segments.getD i (CubicBezier.new ⟨0, 0⟩ ⟨0, 0⟩ ⟨0, 0⟩ ⟨0, 0⟩)

/-- Segment index and local parameter for a global parameter u; the usize
cast of the clamped nonnegative u is its floor and fract is u minus it. -/
def SmoothBezierSpline.segment_and_t [FloorRing α] (self : SmoothBezierSpline α) (u : α) :
    ℕ × α :=
  if u ≥ self.max_u then (self.segments.length - 1, 1)
  else
    let u2 := max (min u self.max_u) 0
    (⌊u2⌋.toNat, u2 - ⌊u2⌋)

/-- Running minimum over farthest-corner squared distances; none models the
initial positive infinity, which every finite value replaces. -/
def updateUB (ub : Option α) (farthest_d2 : α) : Option α :=
  match ub with
  | none => some farthest_d2
  | some u => if farthest_d2 < u then some farthest_d2 else some u

/-- Test min_d2 against the upper bound; against infinity it is false. -/
def uGT (x : α) (ub : Option α) : Bool :=
  match ub with
  | none => false
  | some u => decide (x > u)

/-- Squared distance between the box point and the query point, computed as
in the source as the dot of the difference with itself. -/
def distSq (a b : Vec2 α) : α := (a - b).dot (a - b)

/-- Squared distances from the point to the closest box point and to the
farthest box corner of a segment, the first pass of closest_point. -/
def boxDistances (segment : CubicBezier α) (point : Vec2 α) : α × α :=
  let bb := segment.bounding_box
  (distSq (bb.closest_point point) point, distSq (bb.farthest_point point) point)

/-- Fold step keeping the candidate of smallest distance_sq, keeping the
earlier candidate on ties (total_cmp Less or Equal keeps the accumulator). -/
def minFoldStep (acc : Option (ClosestPointOutput α)) (pt : ClosestPointOutput α) :
    Option (ClosestPointOutput α) :=
  match acc with
  | none => some pt
  | some pp => if pp.distance_sq ≤ pt.distance_sq then some pp else some pt

/-- Global closest point with bounding-box pruning: the first pass computes
per-segment box distances and the achievable upper bound; segments whose
closest box distance exceeds the bound are skipped; the survivors run the
segment-level search and the candidate of smallest distance_sq wins. -/
def SmoothBezierSpline.closest_point (self : SmoothBezierSpline α) (point : Vec2 α) :
    ClosestPointOutput α :=
  let pairs := self.segments.map (fun segment => boxDistances segment point)
  let upper_bound := pairs.foldl (fun ub pr => updateUB ub pr.2) none
  let points := (List.range self.segments.length).filterMap (fun i =>
    if uGT (pairs.getD i (0, 0)).1 upper_bound then none
    else
      let point_output := (self.segAt i).closest_point point
      some (⟨(i : α) + point_output.parameter, point_output.distance_sq⟩ :
        ClosestPointOutput α))
  (points.foldl minFoldStep none).getD ⟨0, 0⟩

/-- Modelled from the spec: the unpruned global search that invokes the
segment-level closest_point on every segment and takes the candidate of
smallest distance_sq, the reported parameter being the segment index plus
the local parameter; stated for comparison with the pruned closest_point. -/
def closest_point_unpruned (s : SmoothBezierSpline α) (p : Vec2 α) :
    ClosestPointOutput α :=
  let points := (List.range s.segments.length).map (fun i =>
    let point_output := (s.segAt i).closest_point p
    (⟨(i : α) + point_output.parameter, point_output.distance_sq⟩ :
      ClosestPointOutput α))
  (points.foldl minFoldStep none).getD ⟨0, 0⟩

/-! Arc length, real-valued because it integrates a Euclidean norm. -/

/-- Trapezoidal arc-length integral of the source with the given steps. -/
noncomputable def CubicBezier.arcLengthNum (self : CubicBezier ℝ) (t_start t_end : ℝ)
    (steps : ℕ) : ℝ :=
  let dt := (t_end - t_start) / (steps : ℝ)
  (((List.range' 1 (steps - 1)).map
      (fun i => (self.velocity (t_start + (i : ℝ) * dt)).norm * dt)).sum)
    + 0.5 * dt * ((self.velocity t_start).norm + (self.velocity t_end).norm)

/-- Cached full arc length computed by the constructor. -/
noncomputable def CubicBezier.arc_length_full (self : CubicBezier ℝ) : ℝ :=
  self.arcLengthNum 0 1 32

noncomputable def CubicBezier.arc_length (self : CubicBezier ℝ) (t : ℝ) : ℝ :=
  if t = 1 then self.arc_length_full else self.arcLengthNum 0 t 32

noncomputable def SmoothBezierSpline.arc_length (self : SmoothBezierSpline ℝ) (u : ℝ) : ℝ :=
  let it := self.segment_and_t u
  let previous_length := ((self.segments.take it.1).map
    (fun segment => segment.arc_length 1)).sum
  previous_length + (self.segAt it.1).arc_length it.2

noncomputable def SmoothBezierSpline.total_length (self : SmoothBezierSpline ℝ) : ℝ :=
  self.arc_length (self.segments.length : ℝ)

/-! ## SplineMap track (car_sim/src/map/spline_map.rs) -/

structure CarConfig (α : Type) where
  length : α
  front_axle : α
  back_axle : α
  max_delta : α
  acceleration : α
  brake_acceleration : α
  steer_speed : α
deriving DecidableEq, Repr

structure CarState (α : Type) where
  position : Vec2 α
  unit_forward : Vec2 α
  speed : α
  steer_delta : α
deriving DecidableEq, Repr

structure CarInput (α : Type) where
  forward_acc : α
  target_delta : α
  braking : Bool
deriving DecidableEq, Repr

structure SplineMap (α : Type) where
  spline : SmoothBezierSpline α
  width : α
  max_d2 : α
deriving DecidableEq, Repr

/-- Constructor of SplineMap, the only writer of the private max_d2 field. -/
def SplineMap.new (spline : SmoothBezierSpline α) (width : α) : SplineMap α :=
  ⟨spline, width, 0.25 * width * width⟩

def SplineMap.point_inside (self : SplineMap α) (point : Vec2 α) : Bool :=
  (self.spline.closest_point point).distance_sq < self.max_d2

def SplineMap.is_crashed (self : SplineMap α) (state : CarState α)
    (config : CarConfig α) : Bool :=
  let back_point := state.position - state.unit_forward * config.back_axle
  let front_point := back_point + state.unit_forward * config.length
  !self.point_inside back_point || !self.point_inside front_point

/-! ## Kinematic car integrator (src/car/physics.rs), at the reals -/

/-- Model of f32 signum on exact values: 1 on nonnegative input (positive
zero included), -1 on negative input. -/
def signumF (v : α) : α := if v < 0 then -1 else 1

/-- Reciprocal turn radius tan(delta) / length. -/
noncomputable def invTurnRadius (config : CarConfig ℝ) (delta : ℝ) : ℝ :=
  Real.tan delta / config.length

/-- Steering first-order lag with clamping at the target. -/
def steerUpdate (delta target_delta dt : α) (config : CarConfig α) : α :=
  let direction := signumF (target_delta - delta)
  let step := dt * direction * config.steer_speed
  let new_delta := delta + step
  if (target_delta - new_delta) * direction > 0 then new_delta else target_delta

/-- Speed change over a step: braking adds a deceleration opposing the
current speed sign to the commanded forward acceleration. -/
def dvOf (input : CarInput α) (dt speed : α) (config : CarConfig α) : α :=
  if input.braking then
    let brake_acc := -(signumF speed) * config.brake_acceleration
    dt * (brake_acc + input.forward_acc)
  else dt * input.forward_acc

/-- Average speed over the step, zeroed unless it keeps the sign of the
current speed. -/
def avgSpeedOf (speed dv : α) : α :=
  let avg_speed := speed + 0.5 * dv
  if avg_speed * speed > 0 then avg_speed else 0

/-- New speed, clamped at zero from below. -/
def newSpeedOf (speed dv : α) : α :=
  let new_speed := speed + dv
  if new_speed > 0 then new_speed else 0

/-- One integrator step: steering lag, longitudinal update, then the
two-branch closed-form arc integration switching at one radian. -/
noncomputable def CarState.update (self : CarState ℝ) (input : CarInput ℝ) (dt : ℝ)
    (config : CarConfig ℝ) : CarState ℝ :=
  let steer_delta := steerUpdate self.steer_delta input.target_delta dt config
  let speed := self.speed
  let dv := dvOf input dt speed config
  let avg_speed := avgSpeedOf speed dv
  let new_speed := newSpeedOf speed dv
  let signed_inv_radius := invTurnRadius config steer_delta
  let arc := avg_speed * dt
  let signed_radians_traversed := arc * signed_inv_radius
  let phi := |signed_radians_traversed|
  let e_left := self.unit_forward.rotate90
  let fl :=
    if phi > 1 then
      let radius := 1 / |signed_inv_radius|
      (radius * Real.sin phi, radius * (1 - Real.cos phi))
    else
      let forward_factor := 1 - (1 / 6) * phi ^ 2
      (arc * forward_factor, 0.5 * arc * signed_radians_traversed)
  let new_position := self.position + self.unit_forward * fl.1 + e_left * fl.2
  let new_unit_forward := self.unit_forward.rotate signed_radians_traversed
  { position := new_position, speed := new_speed, unit_forward := new_unit_forward,
    steer_delta := steer_delta }

/-! ## Environment wrapper (car_sim/src/gym.rs), at the reals -/

inductive Action where
  | Left
  | Right
  | Accelerate
  | Brake
  | Coast
deriving DecidableEq, Repr

inductive InvalidActionError where
  | mk
deriving DecidableEq, Repr

/-- Byte decoding of actions with the stable ordinals 0 to 4. -/
def actionTryFrom (value : ℕ) : Except InvalidActionError Action :=
  if value = 0 then Except.ok Action.Left
  else if value = 1 then Except.ok Action.Right
  else if value = 2 then Except.ok Action.Accelerate
  else if value = 3 then Except.ok Action.Brake
  else if value = 4 then Except.ok Action.Coast
  else Except.error InvalidActionError.mk

structure TransitionObservation where
  reward : ℝ
  done : Bool

structure RewardConfig (α : Type) where
  travel_coeff : α
  center_coeff : α
  crash_reward : α
  center_integral_coeff : α
deriving DecidableEq, Repr

structure SimConfig (α : Type) where
  car : CarConfig α
  reward : RewardConfig α
  dt : α
deriving DecidableEq, Repr

structure Simulator where
  config : SimConfig ℝ
  road : SplineMap ℝ
  state : CarState ℝ
  t : ℝ
  i : ℕ

/-- Action-to-input table of Simulator::step. -/
def inputFor (car_cfg : CarConfig α) : Action → CarInput α
  | Action.Left => ⟨0, car_cfg.max_delta, false⟩
  | Action.Right => ⟨0, -car_cfg.max_delta, false⟩
  | Action.Accelerate => ⟨car_cfg.acceleration, 0, false⟩
  | Action.Brake => ⟨0, 0, true⟩
  | Action.Coast => ⟨0, 0, false⟩

/-- Model of the f32 truncation toward zero. -/
def truncF [FloorRing α] (x : α) : α := if 0 ≤ x then (⌊x⌋ : α) else (⌈x⌉ : α)

/-- Model of the f32 remainder operator, which truncates the quotient. -/
def rustRem [FloorRing α] (x y : α) : α := x - y * truncF (x / y)

/-- Wrapped arc-length progress term of Simulator::reward. -/
def travelTerm [FloorRing α] (travel1 travel2 total_length : α) : α :=
  rustRem (travel2 - travel1 + 1.5 * total_length) total_length - 0.5 * total_length

/-- Shaped reward of Simulator::reward: wrapped travel, centering
improvement, centering integral penalty and the crash term. -/
noncomputable def Simulator.reward (self : Simulator) (state new_state : CarState ℝ)
    (is_crashed : Bool) : ℝ :=
  let rcfg := self.config.reward
  let c1 := self.road.spline.closest_point state.position
  let c2 := self.road.spline.closest_point new_state.position
  let travel1 := self.road.spline.arc_length c1.parameter
  let travel2 := self.road.spline.arc_length c2.parameter
  let total_length := self.road.spline.total_length
  let travel := travelTerm travel1 travel2 total_length
  let d_sq_decrease := c2.distance_sq - c1.distance_sq
  rcfg.travel_coeff * travel + rcfg.center_coeff * d_sq_decrease
    - rcfg.center_integral_coeff * c2.distance_sq * self.config.dt
    + rcfg.crash_reward * (if is_crashed then (1 : ℝ) else 0)

/-- One environment step: decode the action to an input, integrate, test
the crash predicate on the new state, compute the reward, then commit the
new state and advance the clock and iteration counter. -/
noncomputable def Simulator.step (self : Simulator) (action : Action) :
    Simulator × TransitionObservation :=
  let dt := self.config.dt
  let car_cfg := self.config.car
  let input := inputFor car_cfg action
  let new_state := self.state.update input dt car_cfg
  let is_crashed := self.road.is_crashed new_state car_cfg
  let reward := self.reward self.state new_state is_crashed
  let done := is_crashed
  ({ self with state := new_state, t := self.t + dt, i := self.i + 1 },
   ⟨reward, done⟩)

/-- Boundary step of the host bindings (gym_car/src/lib.rs): an invalid
byte surfaces as the typed error before the simulator is touched. -/
noncomputable def stepU8 (self : Simulator) (value : ℕ) :
    Simulator × Except InvalidActionError TransitionObservation :=
  match actionTryFrom value with
  | Except.error e => (self, Except.error e)
  | Except.ok action =>
    let so := self.step action
    (so.1, Except.ok so.2)

/-! Default values of the source impl Default blocks. -/

def CarConfig.default : CarConfig ℝ :=
  { length := 3.0, front_axle := 0.5, back_axle := 2.5, max_delta := 0.5,
    acceleration := 6.0, brake_acceleration := 8.0, steer_speed := 0.7 }

def CarState.default : CarState ℝ :=
  { position := ⟨0, 0⟩, unit_forward := ⟨1, 0⟩, speed := 8.0, steer_delta := 0 }

def RewardConfig.default : RewardConfig ℝ :=
  { travel_coeff := 1.0, center_coeff := 2.0, crash_reward := -100.0,
    center_integral_coeff := 1.0 }

def SimConfig.default : SimConfig ℝ :=
  { car := CarConfig.default, reward := RewardConfig.default, dt := 0.2 }

def Simulator.new (config : SimConfig ℝ) (road : SplineMap ℝ) : Simulator :=
  { config := config, road := road, state := CarState.default, t := 0, i := 0 }

def Simulator.reset (self : Simulator) : Simulator :=
  { self with state := CarState.default, t := 0, i := 0 }

/-! ## Basic rewriting lemmas for the vector operations -/

@[simp]
theorem Vec2.add_def (a b : Vec2 α) : a + b = ⟨a.x + b.x, a.y + b.y⟩ := rfl

@[simp]
theorem Vec2.sub_def (a b : Vec2 α) : a - b = ⟨a.x - b.x, a.y - b.y⟩ := rfl

@[simp]
theorem Vec2.neg_def (a : Vec2 α) : -a = ⟨-a.x, -a.y⟩ := rfl

@[simp]
theorem Vec2.smul_def (a : Vec2 α) (k : α) : a * k = ⟨a.x * k, a.y * k⟩ := rfl

@[simp]
theorem Vec2.div_def (a : Vec2 α) (k : α) : a / k = ⟨a.x / k, a.y / k⟩ := rfl

@[simp]
theorem Vec2.dot_def (a b : Vec2 α) : a.dot b = a.x * b.x + a.y * b.y := rfl

@[simp]
theorem Vec2.rotate90_def (a : Vec2 α) : a.rotate90 = ⟨-a.y, a.x⟩ := rfl

/-! ## Claim C1: the reward formula -/

/-- C1. For every pair of consecutive car states and crash flag, the
per-step reward equals travel_coeff * travel plus center_coeff times the
change of squared center distance, minus center_integral_coeff times the
new squared center distance times dt, plus crash_reward exactly when
crashed, where travel wraps the arc-length difference of the two
closest-point parameters by ((L2 - L1) + 1.5 T) mod T - 0.5 T; mod is the
remainder of the source expression, which truncates the quotient. -/
theorem C1_reward_formula (sim : Simulator) (s1 s2 : CarState ℝ) (crashed : Bool) :
    sim.reward s1 s2 crashed =
      sim.config.reward.travel_coeff *
          (rustRem
              ((sim.road.spline.arc_length
                  (sim.road.spline.closest_point s2.position).parameter
                - sim.road.spline.arc_length
                    (sim.road.spline.closest_point s1.position).parameter)
                + 1.5 * sim.road.spline.total_length)
              sim.road.spline.total_length
            - 0.5 * sim.road.spline.total_length)
        + sim.config.reward.center_coeff *
            ((sim.road.spline.closest_point s2.position).distance_sq
              - (sim.road.spline.closest_point s1.position).distance_sq)
        - sim.config.reward.center_integral_coeff *
            (sim.road.spline.closest_point s2.position).distance_sq * sim.config.dt
        + (if crashed then sim.config.reward.crash_reward else 0) := by
  cases crashed <;> simp [Simulator.reward, travelTerm]

/-! ## Claim C4: the wrapped travel term -/

/-- C4 counterexample. At T = 2, L1 = 0, L2 = 1 the arc-length difference
is exactly T/2 and the computed travel term is -1 = -T/2: it lies outside
the claimed open-left interval (-T/2, T/2] and differs from L2 - L1. -/
theorem C4_counterexample :
    travelTerm (0 : ℝ) 1 2 = -1
    ∧ ¬(-(2 / 2) < travelTerm (0 : ℝ) 1 2)
    ∧ travelTerm (0 : ℝ) 1 2 ≠ 1 - 0 := by
  have htr : truncF ((2 : ℝ)) = 2 := by
    rw [truncF, if_pos (by norm_num)]
    norm_num
  have h : travelTerm (0 : ℝ) 1 2 = -1 := by
    have h4 : (1 - 0 + 1.5 * 2 : ℝ) / 2 = 2 := by norm_num
    simp only [travelTerm, rustRem, h4, htr]
    norm_num
  refine ⟨h, ?_, ?_⟩ <;> rw [h] <;> norm_num

/-- C4 amended. For arc lengths in [0, T] with T positive, the computed
travel term lies in the half-open interval [-T/2, T/2), and whenever the
difference L2 - L1 is strictly smaller than T/2 in absolute value the
travel term equals it exactly; at difference exactly +T/2 the term wraps
to -T/2, so the claimed open-left interval and the non-strict condition
are corrected to the forms above. -/
theorem C4_amended (L1 L2 T : ℝ) (h1 : 0 ≤ L1) (h2 : L1 ≤ T) (h3 : 0 ≤ L2)
    (h4 : L2 ≤ T) (h5 : 0 < T) :
    (-(T / 2) ≤ travelTerm L1 L2 T ∧ travelTerm L1 L2 T < T / 2)
    ∧ (|L2 - L1| < T / 2 → travelTerm L1 L2 T = L2 - L1) := by
  have hT : T ≠ 0 := ne_of_gt h5
  have hxnn : 0 ≤ L2 - L1 + 1.5 * T := by nlinarith
  have hdivnn : 0 ≤ (L2 - L1 + 1.5 * T) / T := div_nonneg hxnn (le_of_lt h5)
  have htr : truncF ((L2 - L1 + 1.5 * T) / T) = (⌊(L2 - L1 + 1.5 * T) / T⌋ : ℝ) := by
    rw [truncF, if_pos hdivnn]
  constructor
  · constructor
    · have hfl : (⌊(L2 - L1 + 1.5 * T) / T⌋ : ℝ) ≤ (L2 - L1 + 1.5 * T) / T :=
        Int.floor_le _
      have : T * (⌊(L2 - L1 + 1.5 * T) / T⌋ : ℝ) ≤ L2 - L1 + 1.5 * T := by
        calc T * (⌊(L2 - L1 + 1.5 * T) / T⌋ : ℝ)
            ≤ T * ((L2 - L1 + 1.5 * T) / T) := by
              exact mul_le_mul_of_nonneg_left hfl (le_of_lt h5)
          _ = L2 - L1 + 1.5 * T := by field_simp
      simp only [travelTerm, rustRem, htr]
      linarith
    · have hfl : (L2 - L1 + 1.5 * T) / T - 1 < (⌊(L2 - L1 + 1.5 * T) / T⌋ : ℝ) :=
        Int.sub_one_lt_floor _
      have : L2 - L1 + 1.5 * T - T < T * (⌊(L2 - L1 + 1.5 * T) / T⌋ : ℝ) := by
        have := mul_lt_mul_of_pos_left hfl h5
        calc L2 - L1 + 1.5 * T - T = T * ((L2 - L1 + 1.5 * T) / T - 1) := by field_simp
          _ < T * (⌊(L2 - L1 + 1.5 * T) / T⌋ : ℝ) := this
      simp only [travelTerm, rustRem, htr]
      linarith
  · intro h6
    rw [abs_lt] at h6
    have hlow : 1 < (L2 - L1 + 1.5 * T) / T := by
      rw [lt_div_iff h5]
      linarith
    have hhigh : (L2 - L1 + 1.5 * T) / T < 2 := by
      rw [div_lt_iff h5]
      linarith
    have hfloor : ⌊(L2 - L1 + 1.5 * T) / T⌋ = 1 := by
      rw [Int.floor_eq_iff]
      constructor
      · push_cast
        linarith
      · push_cast
        linarith
    simp only [travelTerm, rustRem, htr, hfloor]
    push_cast
    ring

/-! ## Claim C5: longitudinal update -/

/-- Configuration used by concrete physics counterexamples. -/
def cexCfg : CarConfig ℝ := ⟨1, 1, 0, 1, 1, 1, 1⟩

/-- C5 counterexample. Starting from speed 0 with forward_acc = 1, dt = 1
and no braking, dv is 1 but the computed average speed is 0, not 0.5 * dv:
the zero-speed start is clamped because (speed + 0.5 dv) * speed is 0. -/
theorem C5_counterexample :
    avgSpeedOf (0 : ℝ) (dvOf ⟨1, 0, false⟩ 1 0 cexCfg) = 0
    ∧ avgSpeedOf (0 : ℝ) (dvOf ⟨1, 0, false⟩ 1 0 cexCfg)
        ≠ 0.5 * dvOf ⟨1, 0, false⟩ 1 0 cexCfg := by
  norm_num [avgSpeedOf, dvOf]

/-- C5 amended. The speed change dv is dt * forward_acc without braking
and dt * (forward_acc - sign(speed) * brake_acceleration) with braking;
the average speed equals speed + 0.5 dv or is clamped to 0, and it is
clamped exactly when (speed + 0.5 dv) * speed is not positive, which
includes every step starting from speed = 0; the new speed is
max(0, speed + dv), and the speed committed by the integrator step is
exactly this new speed. -/
theorem C5_amended (speed dv dt : ℝ) (input : CarInput ℝ) (cfg : CarConfig ℝ)
    (s : CarState ℝ) :
    dvOf input dt speed cfg =
        (if input.braking then
          dt * (input.forward_acc - signumF speed * cfg.brake_acceleration)
        else dt * input.forward_acc)
    ∧ (avgSpeedOf speed dv = 0 ↔ (speed + 0.5 * dv) * speed ≤ 0)
    ∧ (avgSpeedOf speed dv = speed + 0.5 * dv ∨ avgSpeedOf speed dv = 0)
    ∧ avgSpeedOf 0 dv = 0
    ∧ newSpeedOf speed dv = max 0 (speed + dv)
    ∧ (s.update input dt cfg).speed = newSpeedOf s.speed (dvOf input dt s.speed cfg) := by
  refine ⟨?_, ?_, ?_, ?_, ?_, rfl⟩
  · cases hbr : input.braking
    · simp [dvOf, hbr]
    · simp only [dvOf, hbr, if_true]
      ring
  · simp only [avgSpeedOf]
    split_ifs with h
    · constructor
      · intro h0
        rw [h0, zero_mul] at h
        linarith
      · intro hle
        linarith
    · have hle := not_lt.mp h
      exact ⟨fun _ => hle, fun _ => rfl⟩
  · simp only [avgSpeedOf]
    split_ifs <;> simp
  · simp [avgSpeedOf]
  · simp only [newSpeedOf]
    split_ifs with h
    · exact (max_eq_right (le_of_lt h)).symm
    · exact (max_eq_left (not_lt.mp h)).symm

/-! ## Claim C6: the crash predicate -/

/-- C6. For maps built by the SplineMap constructor, is_crashed holds if
and only if the back reference point or the front reference point is
outside, where a point is inside exactly when its closest-point squared
distance is below (width/2)^2. -/
theorem C6_is_crashed_iff (spline : SmoothBezierSpline ℝ) (width : ℝ)
    (state : CarState ℝ) (cfg : CarConfig ℝ) :
    (SplineMap.new spline width).is_crashed state cfg = true ↔
      (¬((spline.closest_point
            (state.position - state.unit_forward * cfg.back_axle)).distance_sq
          < (width / 2) ^ 2)
       ∨ ¬((spline.closest_point
            ((state.position - state.unit_forward * cfg.back_axle)
              + state.unit_forward * cfg.length)).distance_sq
          < (width / 2) ^ 2)) := by
  have hw : (width / 2) ^ 2 = 0.25 * width * width := by ring
  simp [SplineMap.is_crashed, SplineMap.point_inside, SplineMap.new, hw]

/-! ## Claim C8: action decoding -/

/-- Simulator used as the concrete instance for boundary-step claims. -/
noncomputable def simC8 : Simulator :=
  Simulator.new SimConfig.default (SplineMap.new ⟨[]⟩ 1)

/-- C8. Bytes 0 to 4 decode to the five actions whose step inputs follow
the table exactly, and every byte of value at least 5 produces the typed
invalid-action error while leaving the simulator unchanged. -/
theorem C8_action_decoding (cfg : CarConfig ℝ) (sim : Simulator) (b : ℕ)
    (hb : 5 ≤ b) :
    actionTryFrom 0 = Except.ok Action.Left
    ∧ actionTryFrom 1 = Except.ok Action.Right
    ∧ actionTryFrom 2 = Except.ok Action.Accelerate
    ∧ actionTryFrom 3 = Except.ok Action.Brake
    ∧ actionTryFrom 4 = Except.ok Action.Coast
    ∧ inputFor cfg Action.Left = ⟨0, cfg.max_delta, false⟩
    ∧ inputFor cfg Action.Right = ⟨0, -cfg.max_delta, false⟩
    ∧ inputFor cfg Action.Accelerate = ⟨cfg.acceleration, 0, false⟩
    ∧ inputFor cfg Action.Brake = ⟨0, 0, true⟩
    ∧ inputFor cfg Action.Coast = ⟨0, 0, false⟩
    ∧ actionTryFrom b = Except.error InvalidActionError.mk
    ∧ (stepU8 sim b).1 = sim := by
  have herr : actionTryFrom b = Except.error InvalidActionError.mk := by
    simp only [actionTryFrom]
    rw [if_neg (by omega), if_neg (by omega), if_neg (by omega), if_neg (by omega),
      if_neg (by omega)]
  refine ⟨rfl, rfl, rfl, rfl, rfl, rfl, rfl, rfl, rfl, rfl, herr, ?_⟩
  simp [stepU8, herr]

/-! ## Lemmas about the grid argmin fold -/

theorem argminAcc_step (acc : Option (ℕ × α)) (x : ℕ × α) :
    ∃ m, argminAcc acc x = some m ∧ m.2 ≤ x.2
      ∧ ∀ jv, acc = some jv → m.2 ≤ jv.2 := by
  cases acc with
  | none =>
    refine ⟨x, rfl, le_refl _, ?_⟩
    intro jv h
    cases h
  | some j =>
    by_cases h : x.2 ≤ j.2
    · refine ⟨x, ?_, le_refl _, ?_⟩
      · simp [argminAcc, h]
      · intro jv hj
        cases hj
        exact h
    · refine ⟨j, ?_, le_of_lt (not_le.mp h), ?_⟩
      · simp [argminAcc, h]
      · intro jv hj
        cases hj
        exact le_refl _

theorem argmin_foldl_le (l : List (ℕ × α)) :
    ∀ (acc : Option (ℕ × α)) (iv : ℕ × α), l.foldl argminAcc acc = some iv →
      (∀ jv ∈ l, iv.2 ≤ jv.2) ∧ (∀ jv, acc = some jv → iv.2 ≤ jv.2) := by
  induction l with
  | nil =>
    intro acc iv h
    refine ⟨?_, ?_⟩
    · intro jv hj
      cases hj
    · intro jv hj
      rw [hj] at h
      cases h
      exact le_refl _
  | cons x t ih =>
    intro acc iv h
    rw [List.foldl_cons] at h
    obtain ⟨m, hm, hmx, hmacc⟩ := argminAcc_step acc x
    rw [hm] at h
    obtain ⟨ht, hacc⟩ := ih (some m) iv h
    have hivm : iv.2 ≤ m.2 := hacc m rfl
    constructor
    · intro jv hj
      rcases List.mem_cons.mp hj with hj | hj
      · rw [hj]
        exact le_trans hivm hmx
      · exact ht jv hj
    · intro jv hj
      exact le_trans hivm (hmacc jv hj)

theorem argmin_foldl_mem (l : List (ℕ × α)) :
    ∀ (acc : Option (ℕ × α)) (iv : ℕ × α), l.foldl argminAcc acc = some iv →
      acc = some iv ∨ iv ∈ l := by
  induction l with
  | nil =>
    intro acc iv h
    exact Or.inl h
  | cons x t ih =>
    intro acc iv h
    rw [List.foldl_cons] at h
    rcases ih (argminAcc acc x) iv h with hh | hh
    · cases acc with
      | none =>
        cases hh
        exact Or.inr (List.mem_cons_self _ _)
      | some j =>
        by_cases hle : x.2 ≤ j.2
        · simp only [argminAcc, if_pos hle, Option.some.injEq] at hh
          rw [← hh]
          exact Or.inr (List.mem_cons_self _ _)
        · simp only [argminAcc, if_neg hle, Option.some.injEq] at hh
          rw [← hh]
          exact Or.inl rfl
    · exact Or.inr (List.mem_cons_of_mem _ hh)

theorem foldl_argminAcc_ne_none (t : List (ℕ × α)) :
    ∀ c : ℕ × α, t.foldl argminAcc (some c) ≠ none := by
  induction t with
  | nil =>
    intro c h
    cases h
  | cons y s ihs =>
    intro c h
    rw [List.foldl_cons] at h
    obtain ⟨m2, hm2, -, -⟩ := argminAcc_step (some c) y
    rw [hm2] at h
    exact ihs m2 h

/-- The result value of the 1-D minimizer is the objective evaluated at
some point, and it is bounded by the objective at every grid sample. -/
theorem findMinDifferentiable_spec (f fp : α → α) (a b eps : α) :
    (∃ t, (findMinDifferentiable f fp a b eps).value = f t)
    ∧ ∀ j ∈ List.range 33,
        (findMinDifferentiable f fp a b eps).value ≤ f (a + (j : α) * ((b - a) / 32)) := by
  unfold findMinDifferentiable
  simp only []
  rcases hg : gridArgmin
      ((List.range 33).map (fun (i : ℕ) => (i, f (a + (i : α) * ((b - a) / 32)))))
    with _ | ⟨i, vi⟩
  · exfalso
    rw [show List.range 33 = 0 :: (List.range 32).map Nat.succ from
        List.range_succ_eq_map 32,
      List.map_cons, gridArgmin, List.foldl_cons] at hg
    obtain ⟨m, hm, -, -⟩ := argminAcc_step none ((0 : ℕ),
      f (a + ((0 : ℕ) : α) * ((b - a) / 32)))
    rw [hm] at hg
    exact foldl_argminAcc_ne_none _ m hg
  · have hval : vi = f (a + (i : α) * ((b - a) / 32)) := by
      rcases argmin_foldl_mem _ none (i, vi) hg with hh | hh
      · cases hh
      · obtain ⟨j, -, hj2⟩ := List.mem_map.mp hh
        have hj2b : (j, f (a + (j : α) * ((b - a) / 32))) = (i, vi) := hj2
        injection hj2b with hja hjb
        rw [← hjb, hja]
    have hle : ∀ j ∈ List.range 33, vi ≤ f (a + (j : α) * ((b - a) / 32)) := by
      intro j hj
      exact (argmin_foldl_le _ none (i, vi) hg).1 (j, f (a + (j : α) * ((b - a) / 32)))
        (List.mem_map.mpr ⟨j, hj, rfl⟩)
    simp only []
    rcases hloc : findLocalMinDifferentiable fp
        (max (a + (i : α) * ((b - a) / 32) - (b - a) / 32) a)
        (min (a + (i : α) * ((b - a) / 32) + (b - a) / 32) b) eps
      with _ | x_lm
    · exact ⟨⟨a + (i : α) * ((b - a) / 32), hval⟩, hle⟩
    · simp only []
      split_ifs with hlt
      · exact ⟨⟨x_lm, rfl⟩, fun j hj => le_of_lt (lt_of_lt_of_le hlt (hle j hj))⟩
      · exact ⟨⟨a + (i : α) * ((b - a) / 32), hval⟩, hle⟩

/-! ## Claim C9: segment closest-point bounds -/

/-- C9. For every cubic Bezier segment and query point, the reported
squared distance is nonnegative and bounded by the squared distances to
the endpoints get 0 and get 1, because both are grid samples of the
minimized objective. -/
theorem C9_closest_point_bounds (st p1 p2 en : Vec2 α) (q : Vec2 α) :
    0 ≤ ((CubicBezier.new st p1 p2 en).closest_point q).distance_sq
    ∧ ((CubicBezier.new st p1 p2 en).closest_point q).distance_sq
        ≤ (q - (CubicBezier.new st p1 p2 en).get 0).dot
            (q - (CubicBezier.new st p1 p2 en).get 0)
    ∧ ((CubicBezier.new st p1 p2 en).closest_point q).distance_sq
        ≤ (q - (CubicBezier.new st p1 p2 en).get 1).dot
            (q - (CubicBezier.new st p1 p2 en).get 1) := by
  set bz := CubicBezier.new st p1 p2 en
  set f := fun t => (bz.get t - q).dot (bz.get t - q) with hf
  set fp := fun t =>
    let pt := bz.get t
    let v := bz.velocity t
    (pt - q).dot v * 2 with hfp
  have hout : (bz.closest_point q).distance_sq = (findMinDifferentiable f fp 0 1 (1 / 100)).value := by
    simp only [CubicBezier.closest_point]
  obtain ⟨⟨t, ht⟩, hgrid⟩ := findMinDifferentiable_spec f fp (0 : α) 1 (1 / 100)
  have hnn : ∀ u, 0 ≤ f u := by
    intro u
    simp only [hf, Vec2.sub_def, Vec2.dot_def]
    exact add_nonneg (mul_self_nonneg _) (mul_self_nonneg _)
  have hcomm : ∀ u v : Vec2 α, (u - v).dot (u - v) = (v - u).dot (v - u) := by
    intro u v
    simp only [Vec2.sub_def, Vec2.dot_def]
    ring
  refine ⟨?_, ?_, ?_⟩
  · rw [hout, ht]
    exact hnn t
  · have h0 := hgrid 0 (List.mem_range.mpr (by norm_num))
    rw [hout]
    have : (0 : α) + (0 : ℕ) * ((1 - 0) / 32) = 0 := by push_cast; ring
    rw [this] at h0
    calc (findMinDifferentiable f fp 0 1 (1 / 100)).value ≤ f 0 := h0
      _ = (q - bz.get 0).dot (q - bz.get 0) := hcomm _ _
  · have h1 := hgrid 32 (List.mem_range.mpr (by norm_num))
    rw [hout]
    have : (0 : α) + (32 : ℕ) * ((1 - 0) / 32) = 1 := by push_cast; field_simp
    rw [this] at h1
    calc (findMinDifferentiable f fp 0 1 (1 / 100)).value ≤ f 1 := h1
      _ = (q - bz.get 1).dot (q - bz.get 1) := hcomm _ _

/-! ## Claim C10: find_root stays in the bracket -/

theorem signOf_neg_iff (v : α) : signOf v = Sign.Negative ↔ v < 0 := by
  simp only [signOf]
  split_ifs with h1 h2
  · exact iff_of_true rfl h1
  · exact iff_of_false (by intro h; cases h) (by rw [h2]; exact lt_irrefl 0)
  · exact iff_of_false (by intro h; cases h) h1

theorem signOf_zero_iff (v : α) : signOf v = Sign.Zero ↔ v = 0 := by
  simp only [signOf]
  split_ifs with h1 h2
  · refine iff_of_false (by intro h; cases h) ?_
    intro h
    rw [h] at h1
    exact lt_irrefl 0 h1
  · exact iff_of_true rfl h2
  · exact iff_of_false (by intro h; cases h) h2

theorem signOf_pos_iff (v : α) : signOf v = Sign.Positive ↔ 0 < v := by
  simp only [signOf]
  split_ifs with h1 h2
  · exact iff_of_false (by intro h; cases h) (not_lt.mpr (le_of_lt h1))
  · exact iff_of_false (by intro h; cases h) (by rw [h2]; exact lt_irrefl 0)
  · refine iff_of_true rfl ?_
    rcases lt_trichotomy v 0 with h | h | h
    · exact absurd h h1
    · exact absurd h h2
    · exact h

/-- The final linear two-point estimate lies inside the bracketing
interval when the endpoint values have strictly opposite signs. -/
theorem linearEstimate_mem (itv : OpenInterval α) (hlr : itv.left.x ≤ itv.right.x)
    (hs : (itv.left.value < 0 ∧ 0 < itv.right.value)
      ∨ (0 < itv.left.value ∧ itv.right.value < 0)) :
    itv.left.x ≤ itv.linearEstimate ∧ itv.linearEstimate ≤ itv.right.x := by
  have key : itv.right.value - itv.left.value ≠ 0 → itv.linearEstimate
      = itv.right.x - (itv.right.x - itv.left.x) * itv.right.value
          / (itv.right.value - itv.left.value) := by
    intro hne
    simp only [OpenInterval.linearEstimate]
    field_simp
    ring
  rcases hs with ⟨hl, hr⟩ | ⟨hl, hr⟩
  · have hD : 0 < itv.right.value - itv.left.value := by linarith
    constructor
    · have hq : 0 ≤ (itv.right.x - itv.left.x) / (itv.right.value - itv.left.value) :=
        div_nonneg (by linarith) (le_of_lt hD)
      have hnp : itv.left.value * ((itv.right.x - itv.left.x) / (itv.right.value - itv.left.value)) ≤ 0 :=
        mul_nonpos_of_nonpos_of_nonneg (le_of_lt hl) hq
      simp only [OpenInterval.linearEstimate]
      linarith
    · rw [key (ne_of_gt hD)]
      have : 0 ≤ (itv.right.x - itv.left.x) * itv.right.value
          / (itv.right.value - itv.left.value) :=
        div_nonneg (mul_nonneg (by linarith) (le_of_lt hr)) (le_of_lt hD)
      linarith
  · have hD : itv.right.value - itv.left.value < 0 := by linarith
    constructor
    · have hq : (itv.right.x - itv.left.x) / (itv.right.value - itv.left.value) ≤ 0 :=
        div_nonpos_of_nonneg_of_nonpos (by linarith) (le_of_lt hD)
      have hnp : itv.left.value * ((itv.right.x - itv.left.x) / (itv.right.value - itv.left.value)) ≤ 0 :=
        mul_nonpos_of_nonneg_of_nonpos (le_of_lt hl) hq
      simp only [OpenInterval.linearEstimate]
      linarith
    · rw [key (ne_of_lt hD)]
      have hnum : (itv.right.x - itv.left.x) * itv.right.value ≤ 0 :=
        mul_nonpos_of_nonneg_of_nonpos (by linarith) (le_of_lt hr)
      have : 0 ≤ (itv.right.x - itv.left.x) * itv.right.value
          / (itv.right.value - itv.left.value) :=
        div_nonneg_iff.mpr (Or.inr ⟨hnum, le_of_lt hD⟩)
      linarith

/-- The bisection loop result stays inside the original bracket. -/
theorem findRootLoop_mem (f : α → α) (thr a b : α) :
    ∀ (fuel : ℕ) (itv : OpenInterval α),
      a ≤ itv.left.x → itv.left.x ≤ itv.right.x → itv.right.x ≤ b →
      ((itv.left.value < 0 ∧ 0 < itv.right.value ∧ itv.parity = IntervalParity.Rising)
        ∨ (0 < itv.left.value ∧ itv.right.value < 0 ∧ itv.parity = IntervalParity.Falling)) →
      a ≤ findRootLoop f thr fuel itv ∧ findRootLoop f thr fuel itv ≤ b := by
  intro fuel
  induction fuel with
  | zero =>
    intro itv ha hlr hb hs
    simp only [findRootLoop]
    have := linearEstimate_mem itv hlr (by tauto)
    exact ⟨le_trans ha this.1, le_trans this.2 hb⟩
  | succ fuel ih =>
    intro itv ha hlr hb hs
    simp only [findRootLoop]
    split_ifs with hw
    · have := linearEstimate_mem itv hlr (by tauto)
      exact ⟨le_trans ha this.1, le_trans this.2 hb⟩
    · have hm1 : itv.left.x ≤ (itv.left.x + itv.right.x) / 2 := by linarith
      have hm2 : (itv.left.x + itv.right.x) / 2 ≤ itv.right.x := by linarith
      rcases hs with ⟨h1, h2, hp⟩ | ⟨h1, h2, hp⟩
      · rcases lt_trichotomy (f ((itv.left.x + itv.right.x) / 2)) 0 with hfm | hfm | hfm
        · have hstep : itv.update (FunctionObservation.new ((itv.left.x + itv.right.x) / 2)
              (f ((itv.left.x + itv.right.x) / 2)))
              = BisectionUpdate.Interval ⟨FunctionObservation.new ((itv.left.x + itv.right.x) / 2)
                  (f ((itv.left.x + itv.right.x) / 2)), itv.right, IntervalParity.Rising⟩ := by
            simp [OpenInterval.update, FunctionObservation.new, signOf, hp, hfm]
          rw [hstep]
          exact ih _ (le_trans ha hm1) hm2 hb (Or.inl ⟨hfm, h2, rfl⟩)
        · have hstep : itv.update (FunctionObservation.new ((itv.left.x + itv.right.x) / 2)
              (f ((itv.left.x + itv.right.x) / 2)))
              = BisectionUpdate.Root ((itv.left.x + itv.right.x) / 2) := by
            simp [OpenInterval.update, FunctionObservation.new, signOf, hp, hfm]
          rw [hstep]
          exact ⟨le_trans ha hm1, le_trans hm2 hb⟩
        · have hstep : itv.update (FunctionObservation.new ((itv.left.x + itv.right.x) / 2)
              (f ((itv.left.x + itv.right.x) / 2)))
              = BisectionUpdate.Interval ⟨itv.left, FunctionObservation.new ((itv.left.x + itv.right.x) / 2)
                  (f ((itv.left.x + itv.right.x) / 2)), IntervalParity.Rising⟩ := by
            simp [OpenInterval.update, FunctionObservation.new, signOf, hp,
              not_lt.mpr (le_of_lt hfm), ne_of_gt hfm]
          rw [hstep]
          exact ih _ ha hm1 (le_trans hm2 hb) (Or.inl ⟨h1, hfm, rfl⟩)
      · rcases lt_trichotomy (f ((itv.left.x + itv.right.x) / 2)) 0 with hfm | hfm | hfm
        · have hstep : itv.update (FunctionObservation.new ((itv.left.x + itv.right.x) / 2)
              (f ((itv.left.x + itv.right.x) / 2)))
              = BisectionUpdate.Interval ⟨itv.left, FunctionObservation.new ((itv.left.x + itv.right.x) / 2)
                  (f ((itv.left.x + itv.right.x) / 2)), IntervalParity.Falling⟩ := by
            simp [OpenInterval.update, FunctionObservation.new, signOf, hp, hfm]
          rw [hstep]
          exact ih _ ha hm1 (le_trans hm2 hb) (Or.inr ⟨h1, hfm, rfl⟩)
        · have hstep : itv.update (FunctionObservation.new ((itv.left.x + itv.right.x) / 2)
              (f ((itv.left.x + itv.right.x) / 2)))
              = BisectionUpdate.Root ((itv.left.x + itv.right.x) / 2) := by
            simp [OpenInterval.update, FunctionObservation.new, signOf, hp, hfm]
          rw [hstep]
          exact ⟨le_trans ha hm1, le_trans hm2 hb⟩
        · have hstep : itv.update (FunctionObservation.new ((itv.left.x + itv.right.x) / 2)
              (f ((itv.left.x + itv.right.x) / 2)))
              = BisectionUpdate.Interval ⟨FunctionObservation.new ((itv.left.x + itv.right.x) / 2)
                  (f ((itv.left.x + itv.right.x) / 2)), itv.right, IntervalParity.Falling⟩ := by
            simp [OpenInterval.update, FunctionObservation.new, signOf, hp,
              not_lt.mpr (le_of_lt hfm), ne_of_gt hfm]
          rw [hstep]
          exact ih _ (le_trans ha hm1) hm2 hb (Or.inr ⟨hfm, h2, rfl⟩)

/-- C10. Whenever find_root on a bracket with a at most b returns some x,
the result lies in the closed interval: for the endpoint-zero returns, a
midpoint observed to be exactly zero, and the final linear two-point
estimate on the last bracketing interval. -/
theorem C10_find_root_in_bracket (f : α → α) (a b eps x : α) (hab : a ≤ b)
    (hx : findRoot f a b eps = some x) : a ≤ x ∧ x ≤ b := by
  simp only [findRoot, FunctionObservation.new] at hx
  rcases ha : signOf (f a) with _ | _ | _ <;> rcases hb : signOf (f b) with _ | _ | _ <;>
    rw [ha, hb] at hx <;> simp only at hx
  · cases hx
  · cases hx
    exact ⟨hab, le_refl _⟩
  · cases hx
    refine findRootLoop_mem f eps a b 20 _ (le_refl _) hab (le_refl _) ?_
    exact Or.inl ⟨(signOf_neg_iff _).mp ha, (signOf_pos_iff _).mp hb, rfl⟩
  · cases hx
    exact ⟨le_refl _, hab⟩
  · cases hx
    exact ⟨le_refl _, hab⟩
  · cases hx
    exact ⟨le_refl _, hab⟩
  · cases hx
    refine findRootLoop_mem f eps a b 20 _ (le_refl _) hab (le_refl _) ?_
    exact Or.inr ⟨(signOf_pos_iff _).mp ha, (signOf_neg_iff _).mp hb, rfl⟩
  · cases hx
    exact ⟨hab, le_refl _⟩
  · cases hx

unseal Rat.add Rat.sub Rat.mul Rat.inv Rat.ofScientific in
/-- C10 witness: a simple rational bracket where the loop exits at once
and the linear estimate returns the exact root 1 of t - 1 on [0, 2]. -/
theorem C10_witness : (0 : ℚ) ≤ 2 ∧ ((0 : ℚ) ≤ 1 ∧ (1 : ℚ) ≤ 2) :=
  ⟨by norm_num,
   C10_find_root_in_bracket (fun t : ℚ => t - 1) 0 2 3 1 (by norm_num) (by decide)⟩

/-! ## Claim C2: integrator step invariants -/

/-- Steering stays inside the deflection limit when the current and target
deflections are inside it and dt and the steering rate are nonnegative. -/
theorem steerUpdate_abs_le (delta target dt : ℝ) (cfg : CarConfig ℝ)
    (h1 : |delta| ≤ cfg.max_delta) (h2 : |target| ≤ cfg.max_delta)
    (hdt : 0 ≤ dt) (hss : 0 ≤ cfg.steer_speed) :
    |steerUpdate delta target dt cfg| ≤ cfg.max_delta := by
  rw [abs_le] at h1 h2 ⊢
  have hstep : 0 ≤ dt * cfg.steer_speed := mul_nonneg hdt hss
  simp only [steerUpdate, signumF]
  by_cases hd : target - delta < 0
  · rw [if_pos hd]
    split_ifs with hcond
    · constructor
      · nlinarith
      · nlinarith
    · exact h2
  · rw [if_neg hd]
    split_ifs with hcond
    · constructor
      · nlinarith
      · nlinarith
    · exact h2

/-- Rotation by sin and cos preserves the Euclidean norm exactly. -/
theorem Vec2.norm_rotate (v : Vec2 ℝ) (θ : ℝ) : (v.rotate θ).norm = v.norm := by
  simp only [Vec2.rotate, Vec2.norm]
  congr 1
  have key : (v.x * Real.cos θ - v.y * Real.sin θ) * (v.x * Real.cos θ - v.y * Real.sin θ)
      + (v.x * Real.sin θ + v.y * Real.cos θ) * (v.x * Real.sin θ + v.y * Real.cos θ)
      = (v.x * v.x + v.y * v.y) * (Real.sin θ ^ 2 + Real.cos θ ^ 2) := by ring
  rw [key, Real.sin_sq_add_cos_sq, mul_one]

/-- C2. After one integrator step from a state with unit forward vector
and steering inside the limit, under an input with target inside the
limit and nonnegative dt and steering rate, the new speed is nonnegative,
the new steering deflection stays inside the limit, and the forward
vector norm stays within one part in a thousand of one (here it is
preserved exactly because the rotation uses sin and cos directly). -/
theorem C2_update_invariants (s : CarState ℝ) (input : CarInput ℝ) (dt : ℝ)
    (cfg : CarConfig ℝ)
    (huf : s.unit_forward.norm = 1)
    (hsteer : |s.steer_delta| ≤ cfg.max_delta)
    (htarget : |input.target_delta| ≤ cfg.max_delta)
    (hdt : 0 ≤ dt) (hss : 0 ≤ cfg.steer_speed) :
    0 ≤ (s.update input dt cfg).speed
    ∧ |(s.update input dt cfg).steer_delta| ≤ cfg.max_delta
    ∧ 1 - 1 / 1000 ≤ (s.update input dt cfg).unit_forward.norm
    ∧ (s.update input dt cfg).unit_forward.norm ≤ 1 + 1 / 1000 := by
  have hspeed : (s.update input dt cfg).speed
      = newSpeedOf s.speed (dvOf input dt s.speed cfg) := rfl
  have hst : (s.update input dt cfg).steer_delta
      = steerUpdate s.steer_delta input.target_delta dt cfg := rfl
  have hufr : (s.update input dt cfg).unit_forward
      = s.unit_forward.rotate
          (avgSpeedOf s.speed (dvOf input dt s.speed cfg) * dt
            * invTurnRadius cfg (steerUpdate s.steer_delta input.target_delta dt cfg)) := rfl
  refine ⟨?_, ?_, ?_, ?_⟩
  · rw [hspeed]
    simp only [newSpeedOf]
    split_ifs with h
    · exact le_of_lt h
    · exact le_refl 0
  · rw [hst]
    exact steerUpdate_abs_le s.steer_delta input.target_delta dt cfg hsteer htarget hdt hss
  · rw [hufr, Vec2.norm_rotate, huf]
    norm_num
  · rw [hufr, Vec2.norm_rotate, huf]
    norm_num

/-- State used by the C2 witness. -/
def wState : CarState ℝ := ⟨⟨0, 0⟩, ⟨1, 0⟩, 0, 0⟩

/-- C2 witness at a concrete unit state and unit configuration. -/
theorem C2_witness :
    (wState.unit_forward.norm = 1
      ∧ |wState.steer_delta| ≤ cexCfg.max_delta
      ∧ |(CarInput.mk 0 0 false : CarInput ℝ).target_delta| ≤ cexCfg.max_delta
      ∧ (0 : ℝ) ≤ 1 ∧ (0 : ℝ) ≤ cexCfg.steer_speed)
    ∧ (0 ≤ (wState.update ⟨0, 0, false⟩ 1 cexCfg).speed
      ∧ |(wState.update ⟨0, 0, false⟩ 1 cexCfg).steer_delta| ≤ cexCfg.max_delta
      ∧ 1 - 1 / 1000 ≤ (wState.update ⟨0, 0, false⟩ 1 cexCfg).unit_forward.norm
      ∧ (wState.update ⟨0, 0, false⟩ 1 cexCfg).unit_forward.norm ≤ 1 + 1 / 1000) := by
  have huf : wState.unit_forward.norm = 1 := by
    simp only [wState, Vec2.norm]
    norm_num
  have hsteer : |wState.steer_delta| ≤ cexCfg.max_delta := by
    simp [wState, cexCfg]
  have htarget : |(CarInput.mk 0 0 false : CarInput ℝ).target_delta| ≤ cexCfg.max_delta := by
    simp [cexCfg]
  have hss : (0 : ℝ) ≤ cexCfg.steer_speed := by
    simp [cexCfg]
  exact ⟨⟨huf, hsteer, htarget, by norm_num, hss⟩,
    C2_update_invariants wState ⟨0, 0, false⟩ 1 cexCfg huf hsteer htarget (by norm_num) hss⟩

/-- C4 witness at T = 2, L1 = 0, L2 = 1/2. -/
theorem C4_witness :
    ((0 : ℝ) ≤ 0 ∧ (0 : ℝ) ≤ 2 ∧ (0 : ℝ) ≤ 1 / 2 ∧ (1 / 2 : ℝ) ≤ 2 ∧ (0 : ℝ) < 2)
    ∧ ((-(2 / 2) ≤ travelTerm (0 : ℝ) (1 / 2) 2 ∧ travelTerm (0 : ℝ) (1 / 2) 2 < 2 / 2)
      ∧ (|(1 / 2 : ℝ) - 0| < 2 / 2 → travelTerm (0 : ℝ) (1 / 2) 2 = 1 / 2 - 0)) :=
  ⟨by norm_num,
   C4_amended 0 (1 / 2) 2 (by norm_num) (by norm_num) (by norm_num) (by norm_num)
     (by norm_num)⟩

/-- C8 witness at byte 7 with the default configuration. -/
theorem C8_witness :
    (5 ≤ 7)
    ∧ (actionTryFrom 0 = Except.ok Action.Left
      ∧ actionTryFrom 1 = Except.ok Action.Right
      ∧ actionTryFrom 2 = Except.ok Action.Accelerate
      ∧ actionTryFrom 3 = Except.ok Action.Brake
      ∧ actionTryFrom 4 = Except.ok Action.Coast
      ∧ inputFor CarConfig.default Action.Left = ⟨0, CarConfig.default.max_delta, false⟩
      ∧ inputFor CarConfig.default Action.Right = ⟨0, -CarConfig.default.max_delta, false⟩
      ∧ inputFor CarConfig.default Action.Accelerate
          = ⟨CarConfig.default.acceleration, 0, false⟩
      ∧ inputFor CarConfig.default Action.Brake = ⟨0, 0, true⟩
      ∧ inputFor CarConfig.default Action.Coast = ⟨0, 0, false⟩
      ∧ actionTryFrom 7 = Except.error InvalidActionError.mk
      ∧ (stepU8 simC8 7).1 = simC8) :=
  ⟨by norm_num, C8_action_decoding CarConfig.default simC8 7 (by norm_num)⟩

/-! ## Claim C3: pruned versus unpruned closest point -/

theorem minFoldStep_gt (u : α) (acc : Option (ClosestPointOutput α))
    (c : ClosestPointOutput α)
    (hau : ∀ d, acc = some d → u < d.distance_sq) (hc : u < c.distance_sq) :
    ∀ d, minFoldStep acc c = some d → u < d.distance_sq := by
  cases acc with
  | none =>
    intro d h
    cases h
    exact hc
  | some e =>
    intro d h
    simp only [minFoldStep] at h
    split_ifs at h with he
    · cases h
      exact hau _ rfl
    · cases h
      exact hc

theorem minFoldStep_small (u : α) (acc : Option (ClosestPointOutput α))
    (c : ClosestPointOutput α)
    (hau : ∀ d, acc = some d → u < d.distance_sq) (hc : c.distance_sq ≤ u) :
    minFoldStep acc c = some c := by
  cases acc with
  | none => rfl
  | some e =>
    have he : u < e.distance_sq := hau e rfl
    simp only [minFoldStep]
    rw [if_neg (not_le.mpr (lt_of_le_of_lt hc he))]

theorem minFold_phase2 {β : Type} (g : β → ClosestPointOutput α) (pred : β → Bool)
    (u : α) :
    ∀ (l : List β) (acc : ClosestPointOutput α), acc.distance_sq ≤ u →
      (∀ x ∈ l, pred x = false → u < (g x).distance_sq) →
      (l.map g).foldl minFoldStep (some acc)
        = ((l.filter pred).map g).foldl minFoldStep (some acc) := by
  intro l
  induction l with
  | nil =>
    intro acc hacc hrem
    rfl
  | cons x t ih =>
    intro acc hacc hrem
    by_cases hp : pred x = true
    · rw [List.filter_cons_of_pos hp, List.map_cons, List.map_cons, List.foldl_cons,
        List.foldl_cons]
      by_cases hc : acc.distance_sq ≤ (g x).distance_sq
      · rw [show minFoldStep (some acc) (g x) = some acc from by
          simp only [minFoldStep]; rw [if_pos hc]]
        exact ih acc hacc (fun y hy => hrem y (List.mem_cons_of_mem _ hy))
      · rw [show minFoldStep (some acc) (g x) = some (g x) from by
          simp only [minFoldStep]; rw [if_neg hc]]
        exact ih (g x) (le_trans (le_of_lt (not_le.mp hc)) hacc)
          (fun y hy => hrem y (List.mem_cons_of_mem _ hy))
    · have hux : u < (g x).distance_sq := hrem x (List.mem_cons_self _ _)
        (Bool.not_eq_true _ ▸ (by simpa using hp))
      rw [List.filter_cons_of_neg (by simpa using hp), List.map_cons, List.foldl_cons]
      rw [show minFoldStep (some acc) (g x) = some acc from by
        simp only [minFoldStep]; rw [if_pos (le_trans hacc (le_of_lt hux))]]
      exact ih acc hacc (fun y hy => hrem y (List.mem_cons_of_mem _ hy))

theorem minFold_phase1 {β : Type} (g : β → ClosestPointOutput α) (pred : β → Bool)
    (u : α) :
    ∀ (l : List β) (au af : Option (ClosestPointOutput α)),
      (∀ c, au = some c → u < c.distance_sq) →
      (∀ c, af = some c → u < c.distance_sq) →
      (∀ x ∈ l, pred x = false → u < (g x).distance_sq) →
      (∃ y ∈ l, pred y = true ∧ (g y).distance_sq ≤ u) →
      (l.map g).foldl minFoldStep au = ((l.filter pred).map g).foldl minFoldStep af := by
  intro l
  induction l with
  | nil =>
    intro au af hau haf hrem hsur
    obtain ⟨y, hy, -⟩ := hsur
    cases hy
  | cons x t ih =>
    intro au af hau haf hrem hsur
    by_cases hp : pred x = true
    · by_cases hd : (g x).distance_sq ≤ u
      · rw [List.filter_cons_of_pos hp, List.map_cons, List.map_cons, List.foldl_cons,
          List.foldl_cons, minFoldStep_small u au (g x) hau hd,
          minFoldStep_small u af (g x) haf hd]
        exact minFold_phase2 g pred u t (g x) hd
          (fun y hy => hrem y (List.mem_cons_of_mem _ hy))
      · have hd2 : u < (g x).distance_sq := not_le.mp hd
        rw [List.filter_cons_of_pos hp, List.map_cons, List.map_cons, List.foldl_cons,
          List.foldl_cons]
        refine ih (minFoldStep au (g x)) (minFoldStep af (g x))
          (minFoldStep_gt u au (g x) hau hd2) (minFoldStep_gt u af (g x) haf hd2)
          (fun y hy => hrem y (List.mem_cons_of_mem _ hy)) ?_
        obtain ⟨y, hy, hyp, hyd⟩ := hsur
        rcases List.mem_cons.mp hy with hy | hy
        · exfalso
          rw [hy] at hyd
          exact absurd hyd (not_le.mpr hd2)
        · exact ⟨y, hy, hyp, hyd⟩
    · have hux : u < (g x).distance_sq := hrem x (List.mem_cons_self _ _) (by simpa using hp)
      rw [List.filter_cons_of_neg (by simpa using hp), List.map_cons, List.foldl_cons]
      refine ih (minFoldStep au (g x)) af
        (minFoldStep_gt u au (g x) hau hux) haf
        (fun y hy => hrem y (List.mem_cons_of_mem _ hy)) ?_
      obtain ⟨y, hy, hyp, hyd⟩ := hsur
      rcases List.mem_cons.mp hy with hy | hy
      · exfalso
        rw [hy] at hyp
        exact absurd hyp (by simpa using hp)
      · exact ⟨y, hy, hyp, hyd⟩

theorem ubFold_acc (l : List α) :
    ∀ a : α, ∃ u, l.foldl updateUB (some a) = some u
      ∧ (u = a ∨ u ∈ l) ∧ u ≤ a ∧ ∀ v ∈ l, u ≤ v := by
  induction l with
  | nil =>
    intro a
    exact ⟨a, rfl, Or.inl rfl, le_refl _, by intro v hv; cases hv⟩
  | cons x t ih =>
    intro a
    rw [List.foldl_cons]
    by_cases h : x < a
    · rw [show updateUB (some a) x = some x from by simp [updateUB, h]]
      obtain ⟨u, hu, hmem, hua, hall⟩ := ih x
      refine ⟨u, hu, ?_, le_trans hua (le_of_lt h), ?_⟩
      · rcases hmem with hm | hm
        · exact Or.inr (hm ▸ List.mem_cons_self _ _)
        · exact Or.inr (List.mem_cons_of_mem _ hm)
      · intro v hv
        rcases List.mem_cons.mp hv with hv | hv
        · exact hv ▸ hua
        · exact hall v hv
    · rw [show updateUB (some a) x = some a from by simp [updateUB, h]]
      obtain ⟨u, hu, hmem, hua, hall⟩ := ih a
      refine ⟨u, hu, ?_, hua, ?_⟩
      · rcases hmem with hm | hm
        · exact Or.inl hm
        · exact Or.inr (List.mem_cons_of_mem _ hm)
      · intro v hv
        rcases List.mem_cons.mp hv with hv | hv
        · exact hv ▸ le_trans hua (not_lt.mp h)
        · exact hall v hv

theorem ubFold_spec (x : α) (t : List α) :
    ∃ u, (x :: t).foldl updateUB none = some u ∧ u ∈ x :: t ∧ ∀ v ∈ x :: t, u ≤ v := by
  rw [List.foldl_cons]
  rw [show updateUB (none : Option α) x = some x from rfl]
  obtain ⟨u, hu, hmem, hux, hall⟩ := ubFold_acc t x
  refine ⟨u, hu, ?_, ?_⟩
  · rcases hmem with hm | hm
    · exact hm ▸ List.mem_cons_self _ _
    · exact List.mem_cons_of_mem _ hm
  · intro v hv
    rcases List.mem_cons.mp hv with hv | hv
    · exact hv ▸ hux
    · exact hall v hv

theorem filterMap_ite {β γ : Type} (c : β → Bool) (g : β → γ) (l : List β) :
    l.filterMap (fun x => if c x then none else some (g x))
      = (l.filter (fun x => !c x)).map g := by
  induction l with
  | nil => rfl
  | cons x t ih =>
    by_cases h : c x
    · rw [List.filterMap_cons, List.filter_cons]
      simp only [h, if_true, Bool.not_true, if_false]
      simpa using ih
    · rw [List.filterMap_cons, List.filter_cons]
      simp only [Bool.not_eq_true] at h
      simp only [h, Bool.not_false, if_false, if_true, List.map_cons]
      simpa using ih

theorem getD_map_lt {β γ : Type} (f : β → γ) (d0 : β) (d : γ) :
    ∀ (l : List β) (i : ℕ), i < l.length → (l.map f).getD i d = f (l.getD i d0) := by
  intro l
  induction l with
  | nil =>
    intro i hi
    cases hi
  | cons x t ih =>
    intro i hi
    cases i with
    | zero => rfl
    | succ j =>
      simp only [List.map_cons, List.getD_cons_succ]
      exact ih j (by simpa using hi)

theorem mem_map_index {β γ : Type} (f : β → γ) (d0 : β) (y : γ) :
    ∀ l : List β, y ∈ l.map f → ∃ j, j < l.length ∧ y = f (l.getD j d0) := by
  intro l
  induction l with
  | nil =>
    intro h
    cases h
  | cons x t ih =>
    intro h
    rcases List.mem_cons.mp h with h | h
    · exact ⟨0, by simp, h⟩
    · obtain ⟨j, hj, hy⟩ := ih h
      exact ⟨j + 1, by simpa using hj, by simpa using hy⟩

theorem ubFold_ne (l : List α) (h : l ≠ []) :
    ∃ u, l.foldl updateUB none = some u ∧ u ∈ l ∧ ∀ v ∈ l, u ≤ v := by
  cases l with
  | nil => exact absurd rfl h
  | cons x t => exact ubFold_spec x t

/-- The junk segment used by segAt. -/
def junkSeg : CubicBezier α := CubicBezier.new ⟨0, 0⟩ ⟨0, 0⟩ ⟨0, 0⟩ ⟨0, 0⟩

/-- C3 amended. The bounding-box-pruned closest_point returns the same
result as the unpruned search provided every segment-level candidate
distance_sq is at least the squared distance to the segment's computed
bounding box and at most the squared distance to its farthest corner;
these side conditions hold when each evaluated curve point lies inside
its computed box, but the boxes are themselves computed numerically and
the counterexample shows the unconditional claim fails. -/
theorem C3_amended (s : SmoothBezierSpline α) (p : Vec2 α)
    (H : ∀ i < s.segments.length,
      (boxDistances (s.segAt i) p).1 ≤ ((s.segAt i).closest_point p).distance_sq
      ∧ ((s.segAt i).closest_point p).distance_sq ≤ (boxDistances (s.segAt i) p).2) :
    s.closest_point p = closest_point_unpruned s p := by
  unfold SmoothBezierSpline.closest_point closest_point_unpruned
  simp only []
  by_cases hnil : s.segments = []
  · rw [hnil]
    rfl
  · have hvne : s.segments.map (fun segment => (boxDistances segment p).2) ≠ [] := by
      simpa using hnil
    obtain ⟨u, hu, humem, hall⟩ :=
      ubFold_ne (s.segments.map (fun segment => (boxDistances segment p).2)) hvne
    have hfold : (s.segments.map (fun segment => boxDistances segment p)).foldl
        (fun ub pr => updateUB ub pr.2) none = some u := by
      have h1 : ((s.segments.map (fun segment => boxDistances segment p)).map Prod.snd).foldl
          updateUB none
          = (s.segments.map (fun segment => boxDistances segment p)).foldl
              (fun ub pr => updateUB ub pr.2) none := List.foldl_map _ _ _ _
      rw [← h1, List.map_map]
      exact hu
    rw [hfold]
    rw [filterMap_ite
      (fun (i : ℕ) => uGT ((s.segments.map (fun segment => boxDistances segment p)).getD i (0, 0)).1
        (some u))
      (fun (i : ℕ) => (⟨(i : α) + ((s.segAt i).closest_point p).parameter,
        ((s.segAt i).closest_point p).distance_sq⟩ : ClosestPointOutput α))]
    have hfolds := minFold_phase1
      (fun (i : ℕ) => (⟨(i : α) + ((s.segAt i).closest_point p).parameter,
        ((s.segAt i).closest_point p).distance_sq⟩ : ClosestPointOutput α))
      (fun (i : ℕ) => !(uGT ((s.segments.map (fun segment => boxDistances segment p)).getD i (0, 0)).1
        (some u)))
      u (List.range s.segments.length) none none
      (by intro c h; cases h) (by intro c h; cases h)
      ?_ ?_
    · rw [← hfolds]
    · intro i hi hpred
      have hilt : i < s.segments.length := List.mem_range.mp hi
      have hgd : ((s.segments.map (fun segment => boxDistances segment p)).getD i (0, 0))
          = boxDistances (s.segAt i) p :=
        getD_map_lt _ junkSeg _ s.segments i hilt
      simp only [] at hpred
      rw [hgd] at hpred
      have hpred2 : uGT (boxDistances (s.segAt i) p).1 (some u) = true := by
        revert hpred
        cases uGT (boxDistances (s.segAt i) p).1 (some u) <;> simp
      simp only [uGT, decide_eq_true_eq] at hpred2
      exact lt_of_lt_of_le hpred2 (H i hilt).1
    · obtain ⟨j, hj, hju⟩ := mem_map_index (fun segment => (boxDistances segment p).2)
        junkSeg u s.segments humem
      have hgd : ((s.segments.map (fun segment => boxDistances segment p)).getD j (0, 0))
          = boxDistances (s.segAt j) p :=
        getD_map_lt _ junkSeg _ s.segments j hj
      have hju2 : u = (boxDistances (s.segAt j) p).2 := hju
      refine ⟨j, List.mem_range.mpr hj, ?_, ?_⟩
      · simp only [Bool.not_eq_true', hgd, uGT, decide_eq_false_iff_not, not_lt]
        exact le_trans (H j hj).1 (le_trans (H j hj).2 (le_of_eq hju2.symm))
      · exact le_trans (H j hj).2 (le_of_eq hju2.symm)

/-- Spline with three segments on which pruning misfires: the last segment
has a sharp leftward dip between two grid samples near its start, so its
numerically computed bounding box misses the dip; the first segment is a
short decoy whose farthest corner sets a small upper bound. -/
def spC3 : SmoothBezierSpline ℚ :=
  SmoothBezierSpline.new
    [⟨⟨-5/2, -1/8⟩, ⟨1/12, 0⟩⟩,
     ⟨⟨-9/4, -1/8⟩, ⟨0, 1/3⟩⟩,
     ⟨⟨0, 0⟩, ⟨0, -8/3⟩⟩,
     ⟨⟨512000, -8⟩, ⟨516096, -8/3⟩⟩]

def pC3 : Vec2 ℚ := ⟨-3/2, -1/8⟩

set_option maxRecDepth 40000 in
unseal Rat.add Rat.sub Rat.mul Rat.inv Rat.ofScientific in
/-- C3 counterexample. On a concrete three-segment spline and query point
the pruned search discards the winning segment: its numerically computed
bounding box misses the curve dip that holds the true closest point, the
box distance exceeds the decoy segment's farthest-corner upper bound, and
the pruned and unpruned searches return different outputs. -/
theorem C3_counterexample :
    spC3.closest_point pC3 ≠ closest_point_unpruned spC3 pC3 := by decide

def splineW : SmoothBezierSpline ℚ :=
  SmoothBezierSpline.new [⟨⟨0, 0⟩, ⟨1, 0⟩⟩, ⟨⟨3, 0⟩, ⟨1, 0⟩⟩]

def pW : Vec2 ℚ := ⟨9/2, 0⟩

set_option maxRecDepth 40000 in
unseal Rat.add Rat.sub Rat.mul Rat.inv Rat.ofScientific in
/-- C3 witness: on a straight one-segment spline the side conditions of
the amended claim hold by evaluation and the searches agree. -/
theorem C3_witness :
    (∀ i < splineW.segments.length,
      (boxDistances (splineW.segAt i) pW).1
          ≤ ((splineW.segAt i).closest_point pW).distance_sq
      ∧ ((splineW.segAt i).closest_point pW).distance_sq
          ≤ (boxDistances (splineW.segAt i) pW).2)
    ∧ splineW.closest_point pW = closest_point_unpruned splineW pW :=
  ⟨by decide, C3_amended splineW pW (by decide)⟩



/-! ## Rational-to-real transport for the crash pipeline -/

/-- Componentwise real cast of a rational vector. -/
def Vec2.toReal (v : Vec2 ℚ) : Vec2 ℝ := ⟨(v.x : ℝ), (v.y : ℝ)⟩

@[simp]
theorem Vec2.toReal_x (v : Vec2 ℚ) : v.toReal.x = (v.x : ℝ) := rfl

@[simp]
theorem Vec2.toReal_y (v : Vec2 ℚ) : v.toReal.y = (v.y : ℝ) := rfl

/-- Real cast of a function observation, keeping the discrete sign. -/
def FunctionObservation.toReal (o : FunctionObservation ℚ) : FunctionObservation ℝ :=
  ⟨(o.x : ℝ), (o.value : ℝ), o.sign⟩

@[simp]
theorem FunctionObservation.obsToReal_x (o : FunctionObservation ℚ) :
    o.toReal.x = (o.x : ℝ) := rfl

@[simp]
theorem FunctionObservation.toReal_value (o : FunctionObservation ℚ) :
    o.toReal.value = (o.value : ℝ) := rfl

@[simp]
theorem FunctionObservation.toReal_sign (o : FunctionObservation ℚ) :
    o.toReal.sign = o.sign := rfl

/-- Real cast of a bracketing interval. -/
def OpenInterval.toReal (itv : OpenInterval ℚ) : OpenInterval ℝ :=
  ⟨itv.left.toReal, itv.right.toReal, itv.parity⟩

/-- Real cast of a bisection update. -/
def BisectionUpdate.toReal : BisectionUpdate ℚ → BisectionUpdate ℝ
  | BisectionUpdate.Root x => BisectionUpdate.Root (x : ℝ)
  | BisectionUpdate.Interval itv => BisectionUpdate.Interval itv.toReal

theorem signOf_cast (v : ℚ) : signOf (v : ℝ) = signOf v := by
  simp only [signOf, Rat.cast_lt_zero, Rat.cast_eq_zero]

theorem FunctionObservation.obsNew_cast (x v : ℚ) :
    FunctionObservation.new (x : ℝ) (v : ℝ) = (FunctionObservation.new x v).toReal := by
  simp [FunctionObservation.new, FunctionObservation.toReal, signOf_cast]

theorem OpenInterval.width_cast (itv : OpenInterval ℚ) :
    itv.toReal.width = (itv.width : ℝ) := by
  simp [OpenInterval.width, OpenInterval.toReal]

theorem OpenInterval.linearEstimate_cast (itv : OpenInterval ℚ) :
    itv.toReal.linearEstimate = (itv.linearEstimate : ℝ) := by
  simp [OpenInterval.linearEstimate, OpenInterval.toReal]

theorem OpenInterval.update_cast (itv : OpenInterval ℚ) (o : FunctionObservation ℚ) :
    itv.toReal.update o.toReal = (itv.update o).toReal := by
  rcases itv with ⟨l, r, par⟩
  rcases o with ⟨x, v, s⟩
  cases par <;> cases s <;> rfl

theorem findRootLoop_cast (F : ℝ → ℝ) (f : ℚ → ℚ)
    (H : ∀ q : ℚ, F (q : ℝ) = ((f q : ℚ) : ℝ)) (thr : ℚ) :
    ∀ (fuel : ℕ) (itv : OpenInterval ℚ),
      findRootLoop F (thr : ℝ) fuel itv.toReal = ((findRootLoop f thr fuel itv : ℚ) : ℝ) := by
  intro fuel
  induction fuel with
  | zero =>
    intro itv
    simp [findRootLoop, OpenInterval.linearEstimate_cast]
  | succ fuel ih =>
    intro itv
    by_cases hw : itv.width ≤ thr
    · have hwR : itv.toReal.width ≤ (thr : ℝ) := by
        rw [OpenInterval.width_cast]; exact_mod_cast hw
      simp only [findRootLoop, if_pos hw, if_pos hwR, OpenInterval.linearEstimate_cast]
    · have hwR : ¬ itv.toReal.width ≤ (thr : ℝ) := by
        rw [OpenInterval.width_cast]; exact_mod_cast hw
      simp only [findRootLoop, if_neg hw, if_neg hwR]
      have hmid : (itv.toReal.left.x + itv.toReal.right.x) / 2
          = (((itv.left.x + itv.right.x) / 2 : ℚ) : ℝ) := by
        simp [OpenInterval.toReal]
      rw [hmid, H, FunctionObservation.obsNew_cast, OpenInterval.update_cast]
      rcases h : itv.update (FunctionObservation.new ((itv.left.x + itv.right.x) / 2)
          (f ((itv.left.x + itv.right.x) / 2))) with x | itv2
      · rfl
      · exact ih itv2

theorem findRoot_cast (F : ℝ → ℝ) (f : ℚ → ℚ)
    (H : ∀ q : ℚ, F (q : ℝ) = ((f q : ℚ) : ℝ)) (a b thr : ℚ) :
    findRoot F (a : ℝ) (b : ℝ) (thr : ℝ)
      = Option.map (fun q : ℚ => (q : ℝ)) (findRoot f a b thr) := by
  simp only [findRoot, H, FunctionObservation.obsNew_cast]
  simp only [FunctionObservation.toReal_sign]
  rcases h1 : (FunctionObservation.new a (f a)).sign <;>
    rcases h2 : (FunctionObservation.new b (f b)).sign <;>
      simp only [Option.map_some, Option.map_none]
  all_goals first
    | rfl
    | (exact congrArg _ (findRootLoop_cast F f H thr 20 ⟨_, _, _⟩))

theorem findLocalMinDifferentiable_cast (Fp : ℝ → ℝ) (fp : ℚ → ℚ)
    (H : ∀ q : ℚ, Fp (q : ℝ) = ((fp q : ℚ) : ℝ)) (a b thr : ℚ) :
    findLocalMinDifferentiable Fp (a : ℝ) (b : ℝ) (thr : ℝ)
      = Option.map (fun q : ℚ => (q : ℝ)) (findLocalMinDifferentiable fp a b thr) := by
  simp only [findLocalMinDifferentiable, H]
  by_cases hc : fp a > 0 ∨ fp b < 0
  · have hcR : ((fp a : ℚ) : ℝ) > 0 ∨ ((fp b : ℚ) : ℝ) < 0 := by
      rcases hc with h | h
      · exact Or.inl (by exact_mod_cast h)
      · exact Or.inr (by exact_mod_cast h)
    rw [if_pos hcR, if_pos hc]
    rfl
  · have hcR : ¬ (((fp a : ℚ) : ℝ) > 0 ∨ ((fp b : ℚ) : ℝ) < 0) := by
      rcases not_or.mp hc with ⟨h1, h2⟩
      refine not_or.mpr ⟨?_, ?_⟩
      · exact_mod_cast h1
      · exact_mod_cast h2
    rw [if_neg hcR, if_neg hc]
    exact findRoot_cast Fp fp H a b thr

theorem argminAcc_cast (acc : Option (ℕ × ℚ)) (iv : ℕ × ℚ) :
    argminAcc (acc.map (fun jv => (jv.1, (jv.2 : ℝ)))) (iv.1, (iv.2 : ℝ))
      = (argminAcc acc iv).map (fun jv => (jv.1, (jv.2 : ℝ))) := by
  cases acc with
  | none => rfl
  | some jv =>
    show argminAcc (some (jv.1, (jv.2 : ℝ))) (iv.1, (iv.2 : ℝ)) = _
    simp only [argminAcc]
    by_cases h : iv.2 ≤ jv.2
    · rw [if_pos (by exact_mod_cast h : ((iv.2 : ℚ) : ℝ) ≤ ((jv.2 : ℚ) : ℝ)), if_pos h]
      rfl
    · rw [if_neg (by exact_mod_cast h : ¬ ((iv.2 : ℚ) : ℝ) ≤ ((jv.2 : ℚ) : ℝ)), if_neg h]
      rfl

theorem foldl_argminAcc_cast (l : List (ℕ × ℚ)) (acc : Option (ℕ × ℚ)) :
    (l.map (fun jv => (jv.1, (jv.2 : ℝ)))).foldl argminAcc
        (acc.map (fun jv => (jv.1, (jv.2 : ℝ))))
      = (l.foldl argminAcc acc).map (fun jv => (jv.1, (jv.2 : ℝ))) := by
  induction l generalizing acc with
  | nil => rfl
  | cons h t ih =>
    simp only [List.map_cons, List.foldl_cons]
    rw [argminAcc_cast]
    exact ih (argminAcc acc h)

theorem gridArgmin_cast (l : List (ℕ × ℚ)) :
    gridArgmin (l.map (fun jv => (jv.1, (jv.2 : ℝ))))
      = (gridArgmin l).map (fun jv => (jv.1, (jv.2 : ℝ))) := by
  have h := foldl_argminAcc_cast l none
  simpa [gridArgmin] using h

theorem findMinDifferentiable_cast (F Fp : ℝ → ℝ) (f fp : ℚ → ℚ)
    (Hf : ∀ q : ℚ, F (q : ℝ) = ((f q : ℚ) : ℝ))
    (Hfp : ∀ q : ℚ, Fp (q : ℝ) = ((fp q : ℚ) : ℝ)) (a b thr : ℚ) :
    findMinDifferentiable F Fp (a : ℝ) (b : ℝ) (thr : ℝ)
      = (findMinDifferentiable f fp a b thr).toReal := by
  unfold findMinDifferentiable
  simp only []
  have hdx : ((b : ℝ) - (a : ℝ)) / (32 : ℝ) = (((b - a) / 32 : ℚ) : ℝ) := by
    push_cast
    ring
  have hvals : (List.range 33).map
        (fun (i : ℕ) => (i, F ((a : ℝ) + (i : ℝ) * (((b : ℝ) - (a : ℝ)) / (32 : ℝ)))))
      = ((List.range 33).map (fun (i : ℕ) => (i, f (a + (i : ℚ) * ((b - a) / 32))))).map
          (fun jv => (jv.1, (jv.2 : ℝ))) := by
    rw [List.map_map]
    refine List.map_congr_left ?_
    intro i _
    simp only [Function.comp]
    have harg : (a : ℝ) + (i : ℝ) * (((b : ℝ) - (a : ℝ)) / (32 : ℝ))
        = ((a + (i : ℚ) * ((b - a) / 32) : ℚ) : ℝ) := by
      push_cast
      ring
    rw [harg, Hf]
  rw [hvals, gridArgmin_cast]
  rcases hg : gridArgmin ((List.range 33).map
      (fun (i : ℕ) => (i, f (a + (i : ℚ) * ((b - a) / 32))))) with _ | ⟨i, vi⟩
  · simp only [Option.map_none']
    rw [Hf, FunctionObservation.obsNew_cast]
  · simp only [Option.map_some']
    have hxi : (a : ℝ) + (i : ℝ) * (((b : ℝ) - (a : ℝ)) / (32 : ℝ))
        = ((a + (i : ℚ) * ((b - a) / 32) : ℚ) : ℝ) := by
      push_cast
      ring
    have hxl : max (((a + (i : ℚ) * ((b - a) / 32) : ℚ) : ℝ) - (((b - a) / 32 : ℚ) : ℝ)) (a : ℝ)
        = ((max (a + (i : ℚ) * ((b - a) / 32) - (b - a) / 32) a : ℚ) : ℝ) := by
      rw [Rat.cast_max]
      push_cast
      ring_nf
    have hxr : min (((a + (i : ℚ) * ((b - a) / 32) : ℚ) : ℝ) + (((b - a) / 32 : ℚ) : ℝ)) (b : ℝ)
        = ((min (a + (i : ℚ) * ((b - a) / 32) + (b - a) / 32) b : ℚ) : ℝ) := by
      rw [Rat.cast_min]
      push_cast
      ring_nf
    rw [hxi, hdx, hxl, hxr,
      findLocalMinDifferentiable_cast Fp fp Hfp _ _ thr]
    rcases hloc : findLocalMinDifferentiable fp
        (max (a + (i : ℚ) * ((b - a) / 32) - (b - a) / 32) a)
        (min (a + (i : ℚ) * ((b - a) / 32) + (b - a) / 32) b) thr with _ | xq
    · simp only [Option.map_none']
      rw [FunctionObservation.obsNew_cast]
    · simp only [Option.map_some']
      rw [Hf]
      by_cases hlt : f xq < vi
      · rw [if_pos (by exact_mod_cast hlt : ((f xq : ℚ) : ℝ) < ((vi : ℚ) : ℝ)),
          if_pos hlt, FunctionObservation.obsNew_cast]
      · rw [if_neg (by exact_mod_cast hlt : ¬ ((f xq : ℚ) : ℝ) < ((vi : ℚ) : ℝ)),
          if_neg hlt, FunctionObservation.obsNew_cast]

/-- Real cast of a cubic segment, cast applied to every cached field. -/
def CubicBezier.toReal (bz : CubicBezier ℚ) : CubicBezier ℝ :=
  ⟨bz.start.toReal, bz.p1.toReal, bz.p2.toReal, bz.stop.toReal,
   bz.c1.toReal, bz.c2.toReal, bz.c3.toReal⟩

/-- Real cast of a bounding box. -/
def BoundingBox.toReal (bb : BoundingBox ℚ) : BoundingBox ℝ :=
  ⟨(bb.min_x : ℝ), (bb.max_x : ℝ), (bb.min_y : ℝ), (bb.max_y : ℝ),
   bb.corners.map Vec2.toReal⟩

/-- Real cast of a closest-point report. -/
def ClosestPointOutput.toReal (o : ClosestPointOutput ℚ) : ClosestPointOutput ℝ :=
  ⟨(o.parameter : ℝ), (o.distance_sq : ℝ)⟩

theorem CubicBezier.get_cast (bz : CubicBezier ℚ) (t : ℚ) :
    bz.toReal.get (t : ℝ) = (bz.get t).toReal := by
  simp [CubicBezier.get, CubicBezier.toReal, Vec2.toReal]

theorem CubicBezier.velocity_cast (bz : CubicBezier ℚ) (t : ℚ) :
    bz.toReal.velocity (t : ℝ) = (bz.velocity t).toReal := by
  simp [CubicBezier.velocity, CubicBezier.toReal, Vec2.toReal]

theorem BoundingBox.boxNew_cast (mx Mx my My : ℚ) :
    BoundingBox.new (mx : ℝ) (Mx : ℝ) (my : ℝ) (My : ℝ) = (BoundingBox.new mx Mx my My).toReal := by
  simp [BoundingBox.new, BoundingBox.toReal, Vec2.toReal]

theorem CubicBezier.bounding_box_cast (bz : CubicBezier ℚ) :
    bz.toReal.bounding_box = bz.bounding_box.toReal := by
  unfold CubicBezier.bounding_box
  simp only []
  have h0 : (0 : ℝ) = ((0 : ℚ) : ℝ) := by norm_num
  have h1 : (1 : ℝ) = ((1 : ℚ) : ℝ) := by norm_num
  have he : (1 / 10000 : ℝ) = ((1 / 10000 : ℚ) : ℝ) := by norm_num
  rw [he, h0, h1]
  rw [findMinDifferentiable_cast _ _ (fun t => (bz.get t).x) (fun t => (bz.velocity t).x)
    (fun q => by rw [CubicBezier.get_cast]; rfl)
    (fun q => by rw [CubicBezier.velocity_cast]; rfl),
    findMinDifferentiable_cast _ _ (fun t => -(bz.get t).x) (fun t => -(bz.velocity t).x)
    (fun q => by rw [CubicBezier.get_cast]; exact (Rat.cast_neg _).symm)
    (fun q => by rw [CubicBezier.velocity_cast]; exact (Rat.cast_neg _).symm),
    findMinDifferentiable_cast _ _ (fun t => (bz.get t).y) (fun t => (bz.velocity t).y)
    (fun q => by rw [CubicBezier.get_cast]; rfl)
    (fun q => by rw [CubicBezier.velocity_cast]; rfl),
    findMinDifferentiable_cast _ _ (fun t => -(bz.get t).y) (fun t => -(bz.velocity t).y)
    (fun q => by rw [CubicBezier.get_cast]; exact (Rat.cast_neg _).symm)
    (fun q => by rw [CubicBezier.velocity_cast]; exact (Rat.cast_neg _).symm)]
  simp only [FunctionObservation.toReal_value]
  rw [show -((((findMinDifferentiable (fun t => -(bz.get t).x) (fun t => -(bz.velocity t).x)
      0 1 (1 / 10000)).value : ℚ)) : ℝ)
    = ((-(findMinDifferentiable (fun t => -(bz.get t).x) (fun t => -(bz.velocity t).x)
      0 1 (1 / 10000)).value : ℚ) : ℝ) from (Rat.cast_neg _).symm]
  rw [show -((((findMinDifferentiable (fun t => -(bz.get t).y) (fun t => -(bz.velocity t).y)
      0 1 (1 / 10000)).value : ℚ)) : ℝ)
    = ((-(findMinDifferentiable (fun t => -(bz.get t).y) (fun t => -(bz.velocity t).y)
      0 1 (1 / 10000)).value : ℚ) : ℝ) from (Rat.cast_neg _).symm]
  rw [BoundingBox.boxNew_cast]

set_option maxHeartbeats 1000000 in
theorem BoundingBox.boxClosestPoint_cast (bb : BoundingBox ℚ) (v : Vec2 ℚ) :
    bb.toReal.closest_point v.toReal = (bb.closest_point v).toReal := by
  rcases bb with ⟨mx, Mx, my, My, cs⟩
  rcases v with ⟨px, py⟩
  simp only [BoundingBox.closest_point, BoundingBox.toReal, Vec2.toReal, gt_iff_lt,
    Rat.cast_le, Rat.cast_lt]
  split_ifs <;> rfl

theorem farthest_fold_cast (v : Vec2 ℚ) (l : List (Vec2 ℚ)) (w : Vec2 ℚ) (d : ℚ) :
    ((l.map Vec2.toReal).map (fun corner =>
        (corner, (v.toReal - corner).dot (v.toReal - corner)))).foldl
        farthestAcc (w.toReal, (d : ℝ))
      = (((l.map (fun corner =>
            (corner, (v - corner).dot (v - corner)))).foldl farthestAcc (w, d)).1.toReal,
         (((l.map (fun corner =>
            (corner, (v - corner).dot (v - corner)))).foldl farthestAcc (w, d)).2 : ℝ)) := by
  induction l generalizing w d with
  | nil => rfl
  | cons c t ih =>
    simp only [List.map_cons, List.foldl_cons]
    have hd : (v.toReal - c.toReal).dot (v.toReal - c.toReal)
        = (((v - c).dot (v - c) : ℚ) : ℝ) := by
      simp [Vec2.toReal]
    rw [hd]
    have hstep : farthestAcc (w.toReal, (d : ℝ)) (c.toReal, (((v - c).dot (v - c) : ℚ) : ℝ))
        = ((farthestAcc (w, d) (c, (v - c).dot (v - c))).1.toReal,
           ((farthestAcc (w, d) (c, (v - c).dot (v - c))).2 : ℝ)) := by
      simp only [farthestAcc]
      by_cases hgt : (v - c).dot (v - c) > d
      · rw [if_pos (by exact_mod_cast hgt :
            (((v - c).dot (v - c) : ℚ) : ℝ) > ((d : ℚ) : ℝ)), if_pos hgt]
      · rw [if_neg (by exact_mod_cast hgt :
            ¬ (((v - c).dot (v - c) : ℚ) : ℝ) > ((d : ℚ) : ℝ)), if_neg hgt]
    rw [hstep]
    exact ih _ _

theorem BoundingBox.farthest_point_cast (bb : BoundingBox ℚ) (v : Vec2 ℚ) :
    bb.toReal.farthest_point v.toReal = (bb.farthest_point v).toReal := by
  unfold BoundingBox.farthest_point
  simp only []
  rw [show bb.toReal.corners = bb.corners.map Vec2.toReal from rfl]
  rcases hc : bb.corners with _ | ⟨c0, cs'⟩
  · rfl
  · simp only [List.map_cons]
    have hd0 : (v.toReal - c0.toReal).dot (v.toReal - c0.toReal)
        = (((v - c0).dot (v - c0) : ℚ) : ℝ) := by
      simp [Vec2.toReal]
    rw [hd0, farthest_fold_cast]

theorem distSq_cast (a b : Vec2 ℚ) :
    distSq a.toReal b.toReal = ((distSq a b : ℚ) : ℝ) := by
  simp [distSq, Vec2.toReal]

theorem boxDistances_cast (bz : CubicBezier ℚ) (v : Vec2 ℚ) :
    boxDistances bz.toReal v.toReal
      = (((boxDistances bz v).1 : ℝ), ((boxDistances bz v).2 : ℝ)) := by
  unfold boxDistances
  simp only []
  rw [CubicBezier.bounding_box_cast, BoundingBox.boxClosestPoint_cast,
    BoundingBox.farthest_point_cast, distSq_cast, distSq_cast]

theorem CubicBezier.bezierClosestPoint_cast (bz : CubicBezier ℚ) (v : Vec2 ℚ) :
    bz.toReal.closest_point v.toReal = (bz.closest_point v).toReal := by
  unfold CubicBezier.closest_point
  simp only []
  have h0 : (0 : ℝ) = ((0 : ℚ) : ℝ) := by norm_num
  have h1 : (1 : ℝ) = ((1 : ℚ) : ℝ) := by norm_num
  have he : (1 / 100 : ℝ) = ((1 / 100 : ℚ) : ℝ) := by norm_num
  rw [he, h0, h1]
  rw [findMinDifferentiable_cast _ _
    (fun t => (bz.get t - v).dot (bz.get t - v))
    (fun t => (bz.get t - v).dot (bz.velocity t) * 2)
    (fun q => by
      rw [CubicBezier.get_cast]
      simp [Vec2.toReal])
    (fun q => by
      rw [CubicBezier.get_cast, CubicBezier.velocity_cast]
      simp [Vec2.toReal])]
  rfl

/-- Real cast of a spline, segmentwise. -/
def SmoothBezierSpline.toReal (s : SmoothBezierSpline ℚ) : SmoothBezierSpline ℝ :=
  ⟨s.segments.map CubicBezier.toReal⟩

theorem SmoothBezierSpline.segAt_cast (s : SmoothBezierSpline ℚ) (i : ℕ) :
    s.toReal.segAt i = (s.segAt i).toReal := by
  unfold SmoothBezierSpline.segAt
  show (s.segments.map CubicBezier.toReal).getD i _ = _
  have hjunk : (CubicBezier.new (⟨0, 0⟩ : Vec2 ℝ) ⟨0, 0⟩ ⟨0, 0⟩ ⟨0, 0⟩)
      = CubicBezier.toReal (CubicBezier.new ⟨0, 0⟩ ⟨0, 0⟩ ⟨0, 0⟩ ⟨0, 0⟩) := by
    simp [CubicBezier.new, CubicBezier.toReal, Vec2.toReal]
  rw [hjunk]
  rcases h : s.segments.get? i with _ | seg
  · rw [List.getD_eq_getElem?_getD, List.getD_eq_getElem?_getD, ← List.get?_eq_getElem?,
      ← List.get?_eq_getElem?, List.get?_map, h]
    rfl
  · rw [List.getD_eq_getElem?_getD, List.getD_eq_getElem?_getD, ← List.get?_eq_getElem?,
      ← List.get?_eq_getElem?, List.get?_map, h]
    rfl

theorem updateUB_cast (ub : Option ℚ) (x : ℚ) :
    updateUB (ub.map (fun q : ℚ => (q : ℝ))) (x : ℝ)
      = (updateUB ub x).map (fun q : ℚ => (q : ℝ)) := by
  cases ub with
  | none => rfl
  | some u =>
    show updateUB (some ((u : ℚ) : ℝ)) (x : ℝ) = _
    simp only [updateUB]
    by_cases h : x < u
    · rw [if_pos (by exact_mod_cast h : ((x : ℚ) : ℝ) < ((u : ℚ) : ℝ)), if_pos h]
      rfl
    · rw [if_neg (by exact_mod_cast h : ¬ ((x : ℚ) : ℝ) < ((u : ℚ) : ℝ)), if_neg h]
      rfl

theorem uGT_cast (x : ℚ) (ub : Option ℚ) :
    uGT (x : ℝ) (ub.map (fun q : ℚ => (q : ℝ))) = uGT x ub := by
  cases ub with
  | none => rfl
  | some u =>
    show uGT (x : ℝ) (some ((u : ℚ) : ℝ)) = _
    simp only [uGT, decide_eq_decide]
    exact ⟨fun h => by exact_mod_cast h, fun h => by exact_mod_cast h⟩

theorem ubFold_cast (l : List (ℚ × ℚ)) (acc : Option ℚ) :
    (l.map (fun pr => ((pr.1 : ℝ), (pr.2 : ℝ)))).foldl (fun ub pr => updateUB ub pr.2)
        (acc.map (fun q : ℚ => (q : ℝ)))
      = (l.foldl (fun ub pr => updateUB ub pr.2) acc).map (fun q : ℚ => (q : ℝ)) := by
  induction l generalizing acc with
  | nil => rfl
  | cons h t ih =>
    simp only [List.map_cons, List.foldl_cons]
    rw [updateUB_cast]
    exact ih (updateUB acc h.2)

theorem minFold_cast (l : List (ClosestPointOutput ℚ)) (acc : Option (ClosestPointOutput ℚ)) :
    (l.map ClosestPointOutput.toReal).foldl minFoldStep (acc.map ClosestPointOutput.toReal)
      = (l.foldl minFoldStep acc).map ClosestPointOutput.toReal := by
  induction l generalizing acc with
  | nil => rfl
  | cons h t ih =>
    simp only [List.map_cons, List.foldl_cons]
    have hstep : minFoldStep (acc.map ClosestPointOutput.toReal) h.toReal
        = (minFoldStep acc h).map ClosestPointOutput.toReal := by
      cases acc with
      | none => rfl
      | some pp =>
        show minFoldStep (some pp.toReal) h.toReal = _
        simp only [minFoldStep, ClosestPointOutput.toReal]
        by_cases hle : pp.distance_sq ≤ h.distance_sq
        · rw [if_pos (by exact_mod_cast hle :
              ((pp.distance_sq : ℚ) : ℝ) ≤ ((h.distance_sq : ℚ) : ℝ)), if_pos hle]
          rfl
        · rw [if_neg (by exact_mod_cast hle :
              ¬ ((pp.distance_sq : ℚ) : ℝ) ≤ ((h.distance_sq : ℚ) : ℝ)), if_neg hle]
          rfl
    rw [hstep]
    exact ih (minFoldStep acc h)

theorem getD_toReal_cast (o : Option (ClosestPointOutput ℚ)) :
    (o.map ClosestPointOutput.toReal).getD ⟨0, 0⟩ = (o.getD ⟨0, 0⟩).toReal := by
  cases o with
  | none => simp [ClosestPointOutput.toReal]
  | some out => rfl

theorem spline_closest_point_cast (s : SmoothBezierSpline ℚ) (p : Vec2 ℚ) :
    s.toReal.closest_point p.toReal = (s.closest_point p).toReal := by
  unfold SmoothBezierSpline.closest_point
  simp only []
  have hsegs : s.toReal.segments = s.segments.map CubicBezier.toReal := rfl
  rw [hsegs]
  have hpairs : (s.segments.map CubicBezier.toReal).map
        (fun segment => boxDistances segment p.toReal)
      = (s.segments.map (fun segment => boxDistances segment p)).map
          (fun pr => ((pr.1 : ℝ), (pr.2 : ℝ))) := by
    rw [List.map_map, List.map_map]
    refine List.map_congr_left ?_
    intro seg _
    simp only [Function.comp]
    exact boxDistances_cast seg p
  rw [hpairs]
  have hub := ubFold_cast (s.segments.map (fun segment => boxDistances segment p)) none
  rw [show (Option.map (fun q : ℚ => (q : ℝ)) none : Option ℝ) = none from rfl] at hub
  rw [hub, List.length_map]
  have hpts : (List.range s.segments.length).filterMap (fun i =>
        if uGT (((s.segments.map (fun segment => boxDistances segment p)).map
            (fun pr => ((pr.1 : ℝ), (pr.2 : ℝ)))).getD i (0, 0)).1
          (Option.map (fun q : ℚ => (q : ℝ))
            ((s.segments.map (fun segment => boxDistances segment p)).foldl
              (fun ub pr => updateUB ub pr.2) none)) then none
        else
          let point_output := (s.toReal.segAt i).closest_point p.toReal
          some (⟨(i : ℝ) + point_output.parameter, point_output.distance_sq⟩ :
            ClosestPointOutput ℝ))
      = ((List.range s.segments.length).filterMap (fun i =>
        if uGT ((s.segments.map (fun segment => boxDistances segment p)).getD i (0, 0)).1
          ((s.segments.map (fun segment => boxDistances segment p)).foldl
            (fun ub pr => updateUB ub pr.2) none) then none
        else
          let point_output := (s.segAt i).closest_point p
          some (⟨(i : ℚ) + point_output.parameter, point_output.distance_sq⟩ :
            ClosestPointOutput ℚ))).map ClosestPointOutput.toReal := by
    rw [List.map_filterMap]
    refine List.filterMap_congr ?_
    intro i _
    have hgd : (((s.segments.map (fun segment => boxDistances segment p)).map
          (fun pr => ((pr.1 : ℝ), (pr.2 : ℝ)))).getD i (0, 0)).1
        = ((((s.segments.map (fun segment => boxDistances segment p)).getD i (0, 0)).1 : ℚ) : ℝ) := by
      rw [show ((0, 0) : ℝ × ℝ)
          = (fun pr : ℚ × ℚ => ((pr.1 : ℝ), (pr.2 : ℝ))) ((0, 0) : ℚ × ℚ) from by norm_num]
      rw [List.getD_eq_getElem?_getD, List.getD_eq_getElem?_getD, ← List.get?_eq_getElem?,
        ← List.get?_eq_getElem?, List.get?_map]
      rcases s.segments.map (fun segment => boxDistances segment p) |>.get? i with _ | pr
      · rfl
      · rfl
    rw [hgd, uGT_cast]
    by_cases hskip : uGT ((s.segments.map
        (fun segment => boxDistances segment p)).getD i (0, 0)).1
        ((s.segments.map (fun segment => boxDistances segment p)).foldl
          (fun ub pr => updateUB ub pr.2) none) = true
    · rw [if_pos hskip, if_pos hskip]
      rfl
    · rw [if_neg hskip, if_neg hskip]
      simp only [Option.map_some', SmoothBezierSpline.segAt_cast,
        CubicBezier.bezierClosestPoint_cast]
      show _ = some (ClosestPointOutput.toReal _)
      simp only [ClosestPointOutput.toReal]
      norm_num
  rw [hpts]
  have hmf := minFold_cast ((List.range s.segments.length).filterMap (fun i =>
        if uGT ((s.segments.map (fun segment => boxDistances segment p)).getD i (0, 0)).1
          ((s.segments.map (fun segment => boxDistances segment p)).foldl
            (fun ub pr => updateUB ub pr.2) none) then none
        else
          let point_output := (s.segAt i).closest_point p
          some (⟨(i : ℚ) + point_output.parameter, point_output.distance_sq⟩ :
            ClosestPointOutput ℚ))) none
  rw [show (Option.map ClosestPointOutput.toReal none : Option (ClosestPointOutput ℝ)) = none
    from rfl] at hmf
  rw [hmf]
  exact getD_toReal_cast _

/-- Real cast of a spline map. -/
def SplineMap.toReal (m : SplineMap ℚ) : SplineMap ℝ :=
  ⟨m.spline.toReal, (m.width : ℝ), (m.max_d2 : ℝ)⟩

/-- Real cast of a car state. -/
def CarState.toReal (s : CarState ℚ) : CarState ℝ :=
  ⟨s.position.toReal, s.unit_forward.toReal, (s.speed : ℝ), (s.steer_delta : ℝ)⟩

/-- Real cast of a car configuration. -/
def CarConfig.toReal (c : CarConfig ℚ) : CarConfig ℝ :=
  ⟨(c.length : ℝ), (c.front_axle : ℝ), (c.back_axle : ℝ), (c.max_delta : ℝ),
   (c.acceleration : ℝ), (c.brake_acceleration : ℝ), (c.steer_speed : ℝ)⟩

theorem SplineMap.point_inside_cast (m : SplineMap ℚ) (v : Vec2 ℚ) :
    m.toReal.point_inside v.toReal = m.point_inside v := by
  unfold SplineMap.point_inside
  rw [show m.toReal.spline = m.spline.toReal from rfl,
    show m.toReal.max_d2 = ((m.max_d2 : ℚ) : ℝ) from rfl,
    spline_closest_point_cast]
  rw [show (m.spline.closest_point v).toReal.distance_sq
    = (((m.spline.closest_point v).distance_sq : ℚ) : ℝ) from rfl]
  simp only [decide_eq_decide]
  exact Rat.cast_lt

theorem SplineMap.is_crashed_cast (m : SplineMap ℚ) (st : CarState ℚ) (cfg : CarConfig ℚ) :
    m.toReal.is_crashed st.toReal cfg.toReal = m.is_crashed st cfg := by
  unfold SplineMap.is_crashed
  simp only []
  have hback : st.toReal.position - st.toReal.unit_forward * cfg.toReal.back_axle
      = (st.position - st.unit_forward * cfg.back_axle).toReal := by
    simp [CarState.toReal, CarConfig.toReal, Vec2.toReal]
  have hfront : st.toReal.position - st.toReal.unit_forward * cfg.toReal.back_axle
        + st.toReal.unit_forward * cfg.toReal.length
      = (st.position - st.unit_forward * cfg.back_axle
        + st.unit_forward * cfg.length).toReal := by
    simp [CarState.toReal, CarConfig.toReal, Vec2.toReal]
  rw [hfront, hback, SplineMap.point_inside_cast, SplineMap.point_inside_cast]

/-- Straight test track along the x axis from 0 to 3. -/
def spline7 : SmoothBezierSpline ℚ :=
  SmoothBezierSpline.new [⟨⟨0, 0⟩, ⟨1, 0⟩⟩, ⟨⟨3, 0⟩, ⟨1, 0⟩⟩]

def roadQ7 : SplineMap ℚ := SplineMap.new spline7 2

def cfgQ7 : CarConfig ℚ := ⟨1, 1, 0, 0, 0, 0, 0⟩

def stateQ1 : CarState ℚ := ⟨⟨9 / 2, 0⟩, ⟨-1, 0⟩, 1, 0⟩

def stateQ2 : CarState ℚ := ⟨⟨7 / 2, 0⟩, ⟨-1, 0⟩, 1, 0⟩

set_option maxRecDepth 40000 in
unseal Rat.add Rat.sub Rat.mul Rat.inv Rat.ofScientific in
theorem crashQ1 : roadQ7.is_crashed stateQ1 cfgQ7 = true := by decide

set_option maxRecDepth 40000 in
unseal Rat.add Rat.sub Rat.mul Rat.inv Rat.ofScientific in
theorem crashQ2 : roadQ7.is_crashed stateQ2 cfgQ7 = false := by decide

/-- Simulator on the straight track, one unit past the end of the road,
driving back toward it at unit speed. -/
noncomputable def sim7 : Simulator :=
  { config := { car := cfgQ7.toReal, reward := ⟨1, 1, 1, 1⟩, dt := 1 },
    road := roadQ7.toReal,
    state := ⟨⟨11 / 2, 0⟩, ⟨-1, 0⟩, 1, 0⟩,
    t := 0, i := 0 }

/-- One coast step of the test configuration moves the car one unit in the
minus x direction and changes nothing else. -/
theorem update7 (p : Vec2 ℝ) :
    CarState.update ⟨p, ⟨-1, 0⟩, 1, 0⟩ (inputFor cfgQ7.toReal Action.Coast) 1 cfgQ7.toReal
      = ⟨⟨p.x - 1, p.y⟩, ⟨-1, 0⟩, 1, 0⟩ := by
  simp only [CarState.update, inputFor, steerUpdate, signumF, dvOf, avgSpeedOf, newSpeedOf,
    invTurnRadius, cfgQ7, CarConfig.toReal]
  norm_num [Vec2.rotate, Real.tan_zero, Real.sin_zero, Real.cos_zero]
  ring

/-- The done flag of a step is the crash test on the state the step also
commits; stated as a definitional identity of Simulator.step. -/
theorem step_done_eq (sim : Simulator) (a : Action) :
    (sim.step a).2.done
      = sim.road.is_crashed (sim.state.update (inputFor sim.config.car a) sim.config.dt
          sim.config.car) sim.config.car := rfl

theorem step7_state1 :
    (sim7.step Action.Coast).1.state = (⟨⟨9 / 2, 0⟩, ⟨-1, 0⟩, 1, 0⟩ : CarState ℝ) := by
  show CarState.update ⟨⟨11 / 2, 0⟩, ⟨-1, 0⟩, 1, 0⟩ (inputFor cfgQ7.toReal Action.Coast) 1
    cfgQ7.toReal = _
  rw [update7]
  norm_num

theorem step7_done1 : (sim7.step Action.Coast).2.done = true := by
  rw [step_done_eq]
  show roadQ7.toReal.is_crashed (CarState.update ⟨⟨11 / 2, 0⟩, ⟨-1, 0⟩, 1, 0⟩
    (inputFor cfgQ7.toReal Action.Coast) 1 cfgQ7.toReal) cfgQ7.toReal = true
  rw [update7]
  have hst : (⟨⟨(11 : ℝ) / 2 - 1, 0⟩, ⟨-1, 0⟩, 1, 0⟩ : CarState ℝ) = stateQ1.toReal := by
    simp [stateQ1, CarState.toReal, Vec2.toReal]
    norm_num
  rw [show (⟨(11 : ℝ) / 2, 0⟩ : Vec2 ℝ).x - 1 = (11 : ℝ) / 2 - 1 from rfl, hst,
    SplineMap.is_crashed_cast]
  exact crashQ1

theorem step7_done2 : ((sim7.step Action.Coast).1.step Action.Coast).2.done = false := by
  rw [step_done_eq]
  rw [show (sim7.step Action.Coast).1.road = roadQ7.toReal from rfl,
    show (sim7.step Action.Coast).1.config = sim7.config from rfl,
    show sim7.config.car = cfgQ7.toReal from rfl,
    show sim7.config.dt = (1 : ℝ) from rfl,
    step7_state1, update7]
  have hst : (⟨⟨(9 : ℝ) / 2 - 1, 0⟩, ⟨-1, 0⟩, 1, 0⟩ : CarState ℝ) = stateQ2.toReal := by
    simp [stateQ2, CarState.toReal, Vec2.toReal]
    norm_num
  rw [show (⟨(9 : ℝ) / 2, 0⟩ : Vec2 ℝ).x - 1 = (9 : ℝ) / 2 - 1 from rfl, hst,
    SplineMap.is_crashed_cast]
  exact crashQ2

/-- Claim C7: the claim that once a step reports done = true every
subsequent step without a reset also reports done = true is refuted: on the
straight test track the simulator starts past the end of the road, the
first coast step reports done = true, and the next coast step carries the
car back inside the track and reports done = false, because the done flag
is recomputed from the crash test of the freshly integrated state and is
never latched. -/
theorem C7_counterexample :
    (sim7.step Action.Coast).2.done = true
      ∧ ((sim7.step Action.Coast).1.step Action.Coast).2.done = false :=
  ⟨step7_done1, step7_done2⟩

/-- Claim C7, amended: stepping a crashed simulator without a reset is
defined behavior in which the integrator continues from the crashed pose,
the step commits the newly integrated state with the road and configuration
unchanged, and the done flag of every step equals the crash test of the
state that this very step commits, with no latching of previous values. -/
theorem C7_amended (sim : Simulator) (a : Action) :
    (sim.step a).1.state
        = sim.state.update (inputFor sim.config.car a) sim.config.dt sim.config.car
      ∧ (sim.step a).1.road = sim.road
      ∧ (sim.step a).1.config = sim.config
      ∧ (sim.step a).2.done
        = sim.road.is_crashed ((sim.step a).1.state) sim.config.car :=
  ⟨rfl, rfl, rfl, rfl⟩

end CarGym
